import Mathlib

/-!
# File/notes manager server: storage access, sharing and login

A shallow embedding of the Express server under `src/server`:

* `routes/files.js`  : upload, file filter, listing, download, delete, share
  and redeem handlers, behind the router-level `protect`;
* `routes/notes.js` : list, get, upsert and delete of notes, behind `protect`;
* `middleware/auth.js` : `protect`, `signToken`, `createSendToken`;
* `middleware/validation.js` : the login and note validation chains;
* `routes/auth.js` : the login handler and the `ADMIN_USER` record;
* `index.js` : the body filter and the mount points of the two routers.

JavaScript strings are lists of characters (`Str`).  Times are milliseconds
since the epoch (`Nat`), the value a `Date` compares by.  Library functions
whose code is not part of the repository (`uuidv4`, `xss`, `bcrypt.compare`,
the clock) enter the handlers as parameters; `jwt.sign` and `jwt.verify` are
parameters of `protect` and `signToken`, and are modelled from the
specification where a claim is about the token itself.
-/

namespace FileManager

/-- A JavaScript string, as the list of its characters. -/
abbrev Str := List Char

/-! ## String helpers of the JavaScript runtime -/

/-- `s.startsWith(p)`. -/
def startsWith : Str → Str → Bool
  | _, [] => true
  | [], _ :: _ => false
  | c :: s, d :: p => c == d && startsWith s p

/-- `s.split(sep)` for a one-character separator: always at least one piece. -/
def split (sep : Char) : Str → List Str
  | [] => [[]]
  | c :: cs =>
    if c = sep then [] :: split sep cs
    else
      match split sep cs with
      | [] => [[c]]
      | piece :: pieces => (c :: piece) :: pieces

/-- `pieces.join(sep)` for a one-character separator. -/
def joinWith (sep : Char) : List Str → Str
  | [] => []
  | [piece] => piece
  | piece :: rest => piece ++ sep :: joinWith sep rest

/-- `regex.test(s)` for a regular expression that is a plain word: the word
occurs somewhere in `s`. -/
def includes : Str → Str → Bool
  | [], w => startsWith [] w
  | c :: s, w => startsWith (c :: s) w || includes s w

/-! ## `path` (POSIX flavour of Node's module) -/

namespace path

/-- One step of `normalizeString`: what a finished segment does to the segments
kept so far (kept in reverse order). Empty segments and `.` are dropped, `..`
removes the last kept segment unless there is none or it is itself `..`, in
which case it is kept only when `allowAboveRoot`. -/
def pushSegment (allowAboveRoot : Bool) (acc : List Str) (seg : Str) : List Str :=
  if seg = [] ∨ seg = ['.'] then acc
  else if seg = ['.', '.'] then
    match acc with
    | [] => if allowAboveRoot then [seg] else []
    | last :: rest =>
      if last = ['.', '.'] then (if allowAboveRoot then seg :: acc else acc)
      else rest
  else seg :: acc

/-- `normalizeString(path, allowAboveRoot, "/", isPosixPathSeparator)`:
resolves `.` and `..` segments and collapses repeated separators; the result
has neither a leading nor a trailing separator. -/
def normalizeString (p : Str) (allowAboveRoot : Bool) : Str :=
  joinWith '/' (((split '/' p).foldl (pushSegment allowAboveRoot) []).reverse)

/-- `path.normalize(p)`. -/
def normalize (p : Str) : Str :=
  if p = [] then ['.']
  else
    let isAbsolute := p.head? = some '/'
    let trailingSeparator := p.getLast? = some '/'
    let q := normalizeString p (!isAbsolute)
    if q = [] then
      if isAbsolute then ['/']
      else if trailingSeparator then ['.', '/'] else ['.']
    else
      let q := if trailingSeparator then q ++ ['/'] else q
      if isAbsolute then '/' :: q else q

/-- `path.join(...args)`: the non-empty arguments joined by `/`, normalised. -/
def join (args : List Str) : Str :=
  match args.filter (fun a => a ≠ []) with
  | [] => ['.']
  | parts => normalize (joinWith '/' parts)

/-- `path.resolve(p)` with one argument, `cwd` being the absolute working
directory `process.cwd()` used when `p` is relative. -/
def resolve (cwd : Str) (p : Str) : Str :=
  if p.head? = some '/' then '/' :: normalizeString (p ++ ['/']) false
  else if p = [] then '/' :: normalizeString (cwd ++ ['/']) false
  else '/' :: normalizeString (cwd ++ '/' :: p ++ ['/']) false

/-- State of the backwards scan of `path.extname`. -/
structure ExtState where
  startDot : Int
  startPart : Int
  endPos : Int
  matchedSlash : Bool
  preDotState : Int

/-- The loop of `path.extname`, `for (let i = path.length - 1; i >= 0; --i)`:
the first argument holds the characters at the indexes `i, i-1, ..., 0`. -/
def extnameLoop : List Char → Int → ExtState → ExtState
  | [], _, st => st
  | code :: rest, i, st =>
    if code = '/' then
      if !st.matchedSlash then { st with startPart := i + 1 }
      else extnameLoop rest (i - 1) st
    else
      let st1 := if st.endPos = -1 then { st with matchedSlash := false, endPos := i + 1 } else st
      let st2 :=
        if code = '.' then
          if st1.startDot = -1 then { st1 with startDot := i }
          else if st1.preDotState ≠ 1 then { st1 with preDotState := 1 } else st1
        else if st1.startDot ≠ -1 then { st1 with preDotState := -1 } else st1
      extnameLoop rest (i - 1) st2

/-- `path.extname(p)`: the part of the last path component from its last dot
on, empty when there is no dot, when the dot is the component's first
character, or when the component is `..`. -/
def extname (p : Str) : Str :=
  let st := extnameLoop p.reverse ((p.length : Int) - 1) ⟨-1, 0, -1, true, 0⟩
  if st.startDot = -1 ∨ st.endPos = -1 ∨ st.preDotState = 0 ∨
      (st.preDotState = 1 ∧ st.startDot = st.endPos - 1 ∧ st.startDot = st.startPart + 1) then []
  else (p.take st.endPos.toNat).drop st.startDot.toNat

end path

/-! ## `fs`: the part of the file system the handlers see -/

/-- A file or directory, under its absolute normalised path (no trailing
separator). -/
structure Node where
  path : Str
  isDirectory : Bool
  size : Nat
  birthtime : Nat
deriving DecidableEq, Repr

/-- The file system: the nodes that exist. -/
abbrev Disk := List Node

namespace fs

/-- `fs.existsSync(p)`. A path that ends in a separator names a directory
only. -/
def existsSync (disk : Disk) (p : Str) : Bool :=
  if p ≠ ['/'] ∧ p.getLast? = some '/' then
    disk.any (fun n => decide (n.path = p.dropLast) && n.isDirectory)
  else disk.any (fun n => decide (n.path = p))

/-- `fs.unlinkSync(p)`: removes the regular file `p`; `none` when the call
throws (nothing there, or a directory). -/
def unlinkSync (disk : Disk) (p : Str) : Option Disk :=
  if disk.any (fun n => decide (n.path = p) && !n.isDirectory) then
    some (disk.filter (fun n => decide (n.path ≠ p)))
  else none

/-- The name under which `p` is listed in directory `dir`, when `p` is a
direct child of it. -/
def childName (dir : Str) (p : Str) : Option Str :=
  if startsWith p (dir ++ ['/']) then
    let name := p.drop (dir.length + 1)
    if name ≠ [] ∧ '/' ∉ name then some name else none
  else none

/-- `fs.readdirSync(dir)`: the names of the direct children of `dir`. -/
def readdirSync (disk : Disk) (dir : Str) : List Str :=
  disk.filterMap (fun n => childName dir n.path)

/-- `fs.statSync(p)`; `none` when the call throws. -/
def statSync (disk : Disk) (p : Str) : Option Node :=
  disk.find? (fun n => decide (n.path = p))

end fs

/-! ## `middleware/auth.js`: the gate -/

/-- What `protect` reads of a request: the `Authorization` header and the
`jwt` cookie (`none`: absent). -/
structure Request where
  authorization : Option Str
  cookieJwt : Option Str
deriving DecidableEq, Repr

/-- Outcome of a middleware: it answered itself, or it called `next()` with
`req.user.id` set. -/
inductive Gate where
  | reject (status : Nat) (error : Str)
  | next (userId : Str)
deriving DecidableEq, Repr

/-- Step 1 of `protect`: the token taken from the request. A header that
starts with `Bearer` decides alone (the second space-separated piece, which
may be missing); the cookie is read only in the `else` branch. `none` is
`undefined`. -/
def requestToken (req : Request) : Option Str :=
  let fromCookie : Option Str :=
    match req.cookieJwt with
    | some c => if c ≠ [] then some c else none
    | none => none
  match req.authorization with
  | some h =>
    if h ≠ [] ∧ startsWith h "Bearer".toList then (split ' ' h)[1]?
    else fromCookie
  | none => fromCookie

/-- The middleware `protect`. `jwtVerify token` stands for
`jwt.verify(token, JWT_SECRET)` at the time of the request: `none` when it
throws, otherwise `decoded.id`. -/
def protect (jwtVerify : Str → Option Str) (req : Request) : Gate :=
  match requestToken req with
  | none => .reject 401 "You are not logged in! Please log in to get access.".toList
  | some token =>
    if token = [] then .reject 401 "You are not logged in! Please log in to get access.".toList
    else
      match jwtVerify token with
      | none => .reject 401 "Invalid token. Please log in again!".toList
      | some id => .next id

/-! ## `routes/files.js` -/

/-- The template string of `storage.filename`,
`${timestamp}-${uuid}-${originalname}`, on the rendered timestamp. -/
def uniqueName (timestamp uuid originalname : Str) : Str :=
  timestamp ++ '-' :: (uuid ++ '-' :: originalname)

/-- The callback value of `storage.filename`: `now` is `Date.now()`, rendered
in decimal by the template string, `uuid` is the value of `uuidv4()`. -/
def filename (now : Nat) (uuid originalname : Str) : Str :=
  uniqueName (Nat.toDigits 10 now) uuid originalname

/-- A version-4 UUID as `uuidv4()` prints it: five groups of 8, 4, 4, 4 and 12
lower-case hexadecimal digits joined by `-`, the third starting with `4` and
the fourth with `8`, `9`, `a` or `b`. -/
def isUuidV4 (u : Str) : Bool :=
  let isHex : Char → Bool := fun c => c.isDigit || ('a' ≤ c && c ≤ 'f')
  match split '-' u with
  | [g1, g2, g3, g4, g5] =>
    g1.length == 8 && g2.length == 4 && g3.length == 4 && g4.length == 4 && g5.length == 12
      && (g1 ++ g2 ++ g3 ++ g4 ++ g5).all isHex
      && g3.head? == some '4'
      && (g4.head? == some '8' || g4.head? == some '9' || g4.head? == some 'a'
          || g4.head? == some 'b')
  | _ => false

/-- The alternatives of the regular expression `allowedTypes`. -/
def allowedWords : List Str :=
  ["jpeg".toList, "jpg".toList, "png".toList, "gif".toList, "pdf".toList, "doc".toList,
   "docx".toList, "txt".toList, "zip".toList, "rar".toList, "mp3".toList, "mp4".toList,
   "avi".toList]

/-- `allowedTypes.test(s)`: the expression has no anchors, so it matches when
one of its alternatives occurs anywhere in `s`. -/
def allowedTypesTest (s : Str) : Bool :=
  allowedWords.any (fun w => includes s w)

/-- `s.toLowerCase()`, on the ASCII letters. -/
def toLowerCase (s : Str) : Str := s.map Char.toLower

/-- What `fileFilter` passes to its callback. -/
inductive FilterResult where
  | accept
  | reject (message : Str)
deriving DecidableEq, Repr

/-- The upload filter `fileFilter(req, file, cb)` on `file.originalname` and
`file.mimetype`. -/
def fileFilter (originalname mimetype : Str) : FilterResult :=
  let extname := allowedTypesTest (toLowerCase (path.extname originalname))
  let mimetypeOk := allowedTypesTest mimetype
  if mimetypeOk && extname then .accept
  else .reject "File type not allowed".toList

/-- An entry of the listing `GET /`. -/
structure FileEntry where
  filename : Str
  originalName : Str
  size : Nat
  uploadDate : Nat
  path : Str
deriving DecidableEq, Repr

/-- The listing's name extraction, `filename.split("-").slice(2).join("-")`. -/
def listedOriginalName (filename : Str) : Str :=
  joinWith '-' ((split '-' filename).drop 2)

/-- A share grant, the value stored in `global.shareMap` under a share id. -/
structure ShareData where
  filename : Str
  createdAt : Nat
  expiresAt : Nat
deriving DecidableEq, Repr

/-- The value of `global.shareMap`: `none` while it is `undefined`, otherwise
the own properties of the object in insertion order. -/
abbrev ShareMap := Option (List (Str × ShareData))

/-- The property names every plain object inherits from `Object.prototype`. -/
def objectPrototypeKeys : List Str :=
  ["constructor".toList, "__proto__".toList, "hasOwnProperty".toList, "isPrototypeOf".toList,
   "propertyIsEnumerable".toList, "toLocaleString".toList, "toString".toList,
   "valueOf".toList, "__defineGetter__".toList, "__defineSetter__".toList,
   "__lookupGetter__".toList, "__lookupSetter__".toList]

/-- What reading `global.shareMap[shareId]` yields. -/
inductive Lookup where
  | undefined
  | inherited
  | own (shareData : ShareData)
deriving DecidableEq, Repr

/-- Reading `obj[key]` on the share map object: an own property, else a
property inherited from `Object.prototype` (a function or object, truthy,
without `filename` or `expiresAt`), else `undefined`. -/
def getProperty (obj : List (Str × ShareData)) (key : Str) : Lookup :=
  match obj.find? (fun e => decide (e.1 = key)) with
  | some e => .own e.2
  | none => if key ∈ objectPrototypeKeys then .inherited else .undefined

/-- Assignment `obj[key] = value` for a key that is not `__proto__` (the keys
written are values of `uuidv4()`): replaces the own property or appends it. -/
def setProperty (obj : List (Str × ShareData)) (key : Str) (value : ShareData) :
    List (Str × ShareData) :=
  if obj.any (fun e => decide (e.1 = key)) then
    obj.map (fun e => if e.1 = key then (key, value) else e)
  else obj ++ [(key, value)]

/-- `delete obj[key]`. -/
def deleteProperty (obj : List (Str × ShareData)) (key : Str) : List (Str × ShareData) :=
  obj.filter (fun e => decide (e.1 ≠ key))

/-- One file part of a multipart upload request, with the values the runtime
supplies while it is stored and reported: `now` is `Date.now()` and `uuid` is
`uuidv4()` in `storage.filename`, `id` is `uuidv4()` and `uploadDate` is
`new Date()` in the handler. -/
structure UploadPart where
  fieldname : Str
  originalname : Str
  mimetype : Str
  size : Nat
  now : Nat
  uuid : Str
  id : Str
  uploadDate : Nat
deriving DecidableEq, Repr

/-- An entry of the response of `POST /upload`. -/
structure UploadedFile where
  id : Str
  originalName : Str
  filename : Str
  size : Nat
  mimetype : Str
  uploadDate : Nat
  path : Str
deriving DecidableEq, Repr

/-- What a handler of the files router does with the response. -/
inductive Response where
  | error (status : Nat) (error : Str)
  | files (entries : List FileEntry)
  | uploaded (files : List UploadedFile)
  | deleted
  | shared (shareLink shareId : Str) (expiresAt : Nat)
  | download (filePath : Str)
  | nextError
deriving DecidableEq, Repr

/-- The HTTP status a handler sets itself; `res.download` and `next(error)`
set none here. -/
def Response.status : Response → Option Nat
  | .error status _ => some status
  | .files _ => some 200
  | .uploaded _ => some 200
  | .deleted => some 200
  | .shared _ _ _ => some 200
  | .download _ => none
  | .nextError => none

/-- The uploads directory, `path.join(__dirname, "../uploads")`. -/
def uploadsDir (dirname : Str) : Str :=
  path.join [dirname, "../uploads".toList]

/-- `xs.map(f)` for a callback that may throw (`none`): the first throw ends
the whole call. -/
def mapOrThrow {α β : Type} (f : α → Option β) : List α → Option (List β)
  | [] => some []
  | x :: xs =>
    match f x with
    | none => none
    | some y =>
      match mapOrThrow f xs with
      | none => none
      | some ys => some (y :: ys)

/-- The callback of the listing, for one name of the uploads directory. -/
def listEntry (dirname : Str) (disk : Disk) (filename : Str) : Option FileEntry :=
  let filePath := path.join [uploadsDir dirname, filename]
  match fs.statSync disk filePath with
  | none => none
  | some stats =>
    some { filename := filename
           originalName := listedOriginalName filename
           size := stats.size
           uploadDate := stats.birthtime
           path := filePath }

/-- Handler of `GET /`: one entry per name in the uploads directory. -/
def listHandler (dirname : Str) (disk : Disk) : Response :=
  if !fs.existsSync disk (uploadsDir dirname) then .files []
  else
    match mapOrThrow (listEntry dirname disk) (fs.readdirSync disk (uploadsDir dirname)) with
    | some files => .files files
    | none => .nextError

/-- Handler of `GET /download/:filename`. -/
def downloadHandler (dirname cwd : Str) (disk : Disk) (filename : Str) : Response :=
  let filePath := path.join [dirname, "../uploads".toList, filename]
  let resolvedPath := path.resolve cwd filePath
  let uploadsPath := path.resolve cwd (path.join [dirname, "../uploads".toList])
  if !startsWith resolvedPath uploadsPath then .error 403 "Access denied".toList
  else if !fs.existsSync disk filePath then .error 404 "File not found".toList
  else .download filePath

/-- Handler of `DELETE /:filename`, with the file system it leaves. -/
def deleteHandler (dirname cwd : Str) (disk : Disk) (filename : Str) : Response × Disk :=
  let filePath := path.join [dirname, "../uploads".toList, filename]
  let resolvedPath := path.resolve cwd filePath
  let uploadsPath := path.resolve cwd (path.join [dirname, "../uploads".toList])
  if !startsWith resolvedPath uploadsPath then (.error 403 "Access denied".toList, disk)
  else if !fs.existsSync disk filePath then (.error 404 "File not found".toList, disk)
  else
    match fs.unlinkSync disk filePath with
    | some disk1 => (.deleted, disk1)
    | none => (.nextError, disk)

/-- Handler of `POST /share/:filename`, with the share map it leaves. `uuid`
is the value of `uuidv4()`; `clock 0` is the time read by `new Date()` for
`createdAt` and `clock 1` the time read by `Date.now()` for `expiresAt`. -/
def shareHandler (dirname : Str) (disk : Disk) (shareMap : ShareMap) (uuid : Str)
    (clock : Nat → Nat) (protocol host : Str) (filename : Str) : Response × ShareMap :=
  let filePath := path.join [dirname, "../uploads".toList, filename]
  if !fs.existsSync disk filePath then (.error 404 "File not found".toList, shareMap)
  else
    let shareId := uuid
    let shareLink := protocol ++ "://".toList ++ host ++ "/api/files/shared/".toList ++ shareId
    let obj := shareMap.getD []
    let shareData : ShareData :=
      { filename := filename
        createdAt := clock 0
        expiresAt := clock 1 + 24 * 60 * 60 * 1000 }
    (.shared shareLink shareId shareData.expiresAt, some (setProperty obj shareId shareData))

/-- Handler of `GET /shared/:shareId`, with the share map it leaves; `now` is
the time read by `new Date()`. An inherited property passes the presence
test, is never expired (`now > undefined` is false) and has no `filename`, so
`path.join` throws. -/
def sharedHandler (dirname : Str) (disk : Disk) (shareMap : ShareMap) (now : Nat)
    (shareId : Str) : Response × ShareMap :=
  match shareMap with
  | none => (.error 404 "Invalid or expired share link".toList, shareMap)
  | some obj =>
    match getProperty obj shareId with
    | .undefined => (.error 404 "Invalid or expired share link".toList, shareMap)
    | .inherited => (.nextError, shareMap)
    | .own shareData =>
      if now > shareData.expiresAt then
        (.error 404 "Share link has expired".toList, some (deleteProperty obj shareId))
      else
        let filePath := path.join [dirname, "../uploads".toList, shareData.filename]
        if !fs.existsSync disk filePath then
          (.error 404 "Shared file not found".toList, shareMap)
        else (.download filePath, shareMap)

/-- Whether `upload.array("files", 5)` with `limits.files = 5`,
`limits.fileSize = 50 * 1024 * 1024` and the file filter lets the whole batch
through: at most five parts, all in the field `files`, all accepted by the
filter, none larger than the limit. Otherwise the middleware removes what it
has stored of the batch and passes an error on. -/
def multerAccepts (parts : List UploadPart) : Bool :=
  decide (parts.length ≤ 5) &&
    parts.all (fun part => decide (part.fieldname = "files".toList)
      && decide (fileFilter part.originalname part.mimetype = .accept)
      && decide (part.size ≤ 50 * 1024 * 1024))

/-- The file the disk storage writes for a part:
`path.join(destination, filename)`. -/
def storedNode (dirname : Str) (part : UploadPart) : Node :=
  { path := path.join [uploadsDir dirname, filename part.now part.uuid part.originalname]
    isDirectory := false
    size := part.size
    birthtime := part.now }

/-- The entry the upload handler reports for a stored part. -/
def uploadedFile (dirname : Str) (part : UploadPart) : UploadedFile :=
  { id := part.id
    originalName := part.originalname
    filename := filename part.now part.uuid part.originalname
    size := part.size
    mimetype := part.mimetype
    uploadDate := part.uploadDate
    path := path.join [uploadsDir dirname, filename part.now part.uuid part.originalname] }

/-- The route `POST /upload`: the upload middleware, then the handler, with
the file system it leaves. A stored file replaces what was at its path. -/
def uploadRoute (dirname : Str) (disk : Disk) (parts : List UploadPart) : Response × Disk :=
  if !multerAccepts parts then (.nextError, disk)
  else if parts = [] then (.error 400 "No files uploaded".toList, disk)
  else if !fs.existsSync disk (uploadsDir dirname) then (.nextError, disk)
  else
    (.uploaded (parts.map (uploadedFile dirname)),
      parts.foldl (fun d part =>
        d.filter (fun n => decide (n.path ≠ (storedNode dirname part).path))
          ++ [storedNode dirname part]) disk)

/-- The state the files router works on. -/
structure FilesState where
  disk : Disk
  shareMap : ShareMap
deriving DecidableEq, Repr

/-- The routes of the files router, with their parameters. -/
inductive FilesRoute where
  | upload (parts : List UploadPart)
  | list
  | download (filename : Str)
  | delete (filename : Str)
  | share (filename protocol host : Str)
  | shared (shareId : Str)
deriving DecidableEq, Repr

/-- What is fixed for the process or supplied by the runtime during one
request: `__dirname` of `routes/`, the working directory, `jwt.verify` under
the signing key, the value `uuidv4()` returns and the successive clock
reads. -/
structure Env where
  dirname : Str
  cwd : Str
  jwtVerify : Str → Option Str
  uuid : Str
  clock : Nat → Nat

/-- The files router: `router.use(protect)` runs before every route that is
registered after it, which is all of them. -/
def filesRouter (env : Env) (req : Request) (route : FilesRoute) (st : FilesState) :
    Response × FilesState :=
  match protect env.jwtVerify req with
  | .reject status error => (.error status error, st)
  | .next _ =>
    match route with
    | .upload parts =>
      let r := uploadRoute env.dirname st.disk parts
      (r.1, { st with disk := r.2 })
    | .list => (listHandler env.dirname st.disk, st)
    | .download filename => (downloadHandler env.dirname env.cwd st.disk filename, st)
    | .delete filename =>
      let r := deleteHandler env.dirname env.cwd st.disk filename
      (r.1, { st with disk := r.2 })
    | .share filename protocol host =>
      let r := shareHandler env.dirname st.disk st.shareMap env.uuid env.clock protocol host
        filename
      (r.1, { st with shareMap := r.2 })
    | .shared shareId =>
      let r := sharedHandler env.dirname st.disk st.shareMap (env.clock 0) shareId
      (r.1, { st with shareMap := r.2 })

/-! ## `middleware/validation.js` and `routes/auth.js` -/

/-- The characters matched by `\s` in a regular expression, which are also
the ones `trim` strips. -/
def isWhiteSpace (c : Char) : Bool :=
  c.toNat ∈ [0x09, 0x0A, 0x0B, 0x0C, 0x0D, 0x20, 0xA0, 0x1680, 0x2028, 0x2029, 0x202F, 0x205F,
    0x3000, 0xFEFF] || (0x2000 ≤ c.toNat && c.toNat ≤ 0x200A)

/-- `s.trim()`. -/
def trim (s : Str) : Str :=
  ((s.dropWhile isWhiteSpace).reverse.dropWhile isWhiteSpace).reverse

/-- The chain `validateLogin` followed by `handleValidationErrors`: the
username is trimmed, must have 3 to 20 characters, all of them in
`[a-zA-Z0-9_]`, and the password at least 6 characters. `none` when the
request is answered 400, otherwise the trimmed username left in `req.body`. -/
def validateLogin (username password : Str) : Option Str :=
  let u := trim username
  if 3 ≤ u.length ∧ u.length ≤ 20 ∧ u ≠ [] ∧ u.all (fun c => c.isAlphanum || c == '_')
      ∧ 6 ≤ password.length then some u
  else none

/-- A user record; `password` is `none` once the property is `undefined`. -/
structure User where
  id : Str
  username : Str
  password : Option Str
deriving DecidableEq, Repr

/-- The module-level constant `ADMIN_USER` as the module initialises it. -/
def ADMIN_USER : User :=
  { id := "1".toList
    username := "sunny".toList
    password := some "$2a$12$LQv3c1yqBWVHxkd0LHAkCOYz6TtxMQJqhN8/LewdBPj3bp.Vp/PpO".toList }

/-- What a handler of the auth router does with the response. -/
inductive AuthResponse where
  | error (status : Nat) (error : Str)
  | token (status : Nat) (token : Str) (user : User)
  | success
  | me (userId : Str)
  | nextError
deriving DecidableEq, Repr

/-- The HTTP status of an auth response (`next(error)` sets none here). -/
def AuthResponse.status : AuthResponse → Option Nat
  | .error status _ => some status
  | .token status _ _ => some status
  | .success => some 200
  | .me _ => some 200
  | .nextError => none

/-- `signToken(id)`, with `jwtSign id` standing for
`jwt.sign` of the payload with that `id` under `JWT_SECRET`, at the time of the call. -/
def signToken (jwtSign : Str → Str) (id : Str) : Str := jwtSign id

/-- `createSendToken(user, statusCode, res)`: the response, and the record
`user` refers to after the call. The assignment `user.password = undefined`
writes to the object passed in, and the body is serialised after it. -/
def createSendToken (jwtSign : Str → Str) (user : User) (statusCode : Nat) :
    AuthResponse × User :=
  let token := signToken jwtSign user.id
  let user1 := { user with password := none }
  (.token statusCode token user1, user1)

/-- The login handler proper, on the validated body; `admin` is the current
value of `ADMIN_USER`, returned as the handler leaves it. `bcryptCompare`
stands for `bcrypt.compare` on two strings; with a hash that is `undefined`
the call rejects and the handler passes the error on. -/
def loginHandler (bcryptCompare : Str → Str → Bool) (jwtSign : Str → Str) (admin : User)
    (username password : Str) : AuthResponse × User :=
  if username ≠ admin.username then (.error 401 "Invalid credentials".toList, admin)
  else
    match admin.password with
    | none => (.nextError, admin)
    | some hash =>
      if !bcryptCompare password hash then (.error 401 "Invalid credentials".toList, admin)
      else createSendToken jwtSign admin 200

/-- The route `POST /login`: validation, then the handler. -/
def login (bcryptCompare : Str → Str → Bool) (jwtSign : Str → Str) (admin : User)
    (username password : Str) : AuthResponse × User :=
  match validateLogin username password with
  | none => (.error 400 "Validation failed".toList, admin)
  | some u => loginHandler bcryptCompare jwtSign admin u password

/-- A request to the auth router. -/
inductive AuthRequest where
  | login (username password : Str)
  | logout
  | me (req : Request)
deriving DecidableEq, Repr

/-- One request to the auth router: the response and the value of
`ADMIN_USER` afterwards. -/
def authRouter (bcryptCompare : Str → Str → Bool) (jwtSign : Str → Str)
    (jwtVerify : Str → Option Str) (admin : User) : AuthRequest → AuthResponse × User
  | .login username password => login bcryptCompare jwtSign admin username password
  | .logout => (.success, admin)
  | .me req =>
    match protect jwtVerify req with
    | .reject status error => (.error status error, admin)
    | .next id => (.me id, admin)

/-- The value of `ADMIN_USER` after a sequence of requests, starting from
`admin`. -/
def adminAfter (bcryptCompare : Str → Str → Bool) (jwtSign : Str → Str)
    (jwtVerify : Str → Option Str) (admin : User) (requests : List AuthRequest) : User :=
  requests.foldl (fun a r => (authRouter bcryptCompare jwtSign jwtVerify a r).2) admin

/-! ## The containment the path guard is specified by, and sample data -/

/-- The specification's containment: `p` is the directory `root` itself or
lies below it, both given as absolute normalised paths. -/
def insideRoot (root p : Str) : Bool :=
  p == root || (if root = ['/'] then startsWith p root else startsWith p (root ++ ['/']))

/-- `__dirname` of `routes/` in the sample deployment. -/
def sampleDirname : Str := "/app/server/routes".toList

/-- A file system with the uploads directory, one upload in it, a file in a
sibling directory whose name begins with `uploads`, and a note. -/
def sampleDisk : Disk :=
  [ ⟨"/app/server/uploads".toList, true, 0, 0⟩,
    ⟨"/app/server/uploads/1700000000000-123e4567-e89b-42d3-a456-426614174000-a.txt".toList,
      false, 3, 1700000000000⟩,
    ⟨"/app/server/uploads-old/x".toList, false, 7, 0⟩,
    ⟨"/app/server/notes/secret.txt".toList, false, 5, 0⟩ ]

/-- The sample file system without the file in the sibling directory. -/
def sampleDiskAfterDelete : Disk :=
  [ ⟨"/app/server/uploads".toList, true, 0, 0⟩,
    ⟨"/app/server/uploads/1700000000000-123e4567-e89b-42d3-a456-426614174000-a.txt".toList,
      false, 3, 1700000000000⟩,
    ⟨"/app/server/notes/secret.txt".toList, false, 5, 0⟩ ]

/-- The entry of the listing for the upload of the sample file system. -/
def sampleEntry : FileEntry :=
  { filename := "1700000000000-123e4567-e89b-42d3-a456-426614174000-a.txt".toList
    originalName := "e89b-42d3-a456-426614174000-a.txt".toList
    size := 3
    uploadDate := 1700000000000
    path :=
      "/app/server/uploads/1700000000000-123e4567-e89b-42d3-a456-426614174000-a.txt".toList }

/-- A share id, as `uuidv4()` returns them. -/
def sampleShareId : Str := "9b2f7c1e-4a3d-4e5f-8a6b-0c1d2e3f4a5b".toList

/-- A grant for the sample upload that expires at time 1000. -/
def sampleGrant : ShareData :=
  { filename := "1700000000000-123e4567-e89b-42d3-a456-426614174000-a.txt".toList
    createdAt := 0
    expiresAt := 1000 }

/-- A `jwt.verify` that accepts the one token `good`, issued to user `1`. -/
def sampleVerify : Str → Option Str :=
  fun token => if token = "good".toList then some "1".toList else none

/-- An environment in which the clock stands at 500. -/
def sampleEnv : Env :=
  { dirname := sampleDirname
    cwd := "/app".toList
    jwtVerify := sampleVerify
    uuid := sampleShareId
    clock := fun _ => 500 }

/-- A state holding the sample grant. -/
def sampleState : FilesState :=
  { disk := sampleDisk
    shareMap := some [(sampleShareId, sampleGrant)] }

/-- A `bcrypt.compare` for the examples, which send only passwords that bcrypt
rejects against the hash they meet (the password named in the comment of
`ADMIN_USER` among them): it answers `false`. -/
def sampleCompare : Str → Str → Bool :=
  fun _ _ => false

/-- A `jwt.sign` stand-in: the token names its subject. -/
def sampleSign : Str → Str := fun id => "token-".toList ++ id

/-! ## `routes/notes.js` -/

/-- A file or directory as the notes routes see it, under its absolute
normalised path (no trailing separator): a regular file has a content and a
modification time. -/
structure NoteNode where
  path : Str
  isDirectory : Bool
  content : Str
  mtime : Nat
deriving DecidableEq, Repr

/-- The file system the notes routes work on: the nodes that exist. -/
abbrev NoteDisk := List NoteNode

/-- The number of bytes of a string written as UTF-8. -/
def utf8Length (s : Str) : Nat := (s.map Char.utf8Size).sum

namespace notefs

/-- `fs.existsSync(p)`. A path that ends in a separator names a directory
only. -/
def existsSync (disk : NoteDisk) (p : Str) : Bool :=
  if p ≠ ['/'] ∧ p.getLast? = some '/' then
    disk.any (fun n => decide (n.path = p.dropLast) && n.isDirectory)
  else disk.any (fun n => decide (n.path = p))

/-- `fs.readdirSync(dir)`: the names of the direct children of `dir`. -/
def readdirSync (disk : NoteDisk) (dir : Str) : List Str :=
  disk.filterMap (fun n => fs.childName dir n.path)

/-- `fs.statSync(p)`; `none` when the call throws. -/
def statSync (disk : NoteDisk) (p : Str) : Option NoteNode :=
  disk.find? (fun n => decide (n.path = p))

/-- `fs.readFileSync(p, "utf8")`; `none` when the call throws (nothing there,
or a directory). -/
def readFileSync (disk : NoteDisk) (p : Str) : Option Str :=
  match disk.find? (fun n => decide (n.path = p)) with
  | some n => if n.isDirectory then none else some n.content
  | none => none

/-- The directory that holds `p`: what precedes the last separator of `p`. -/
def parentPath (p : Str) : Str :=
  let dir := ((p.reverse.dropWhile (fun c => c != '/')).drop 1).reverse
  if dir = [] then ['/'] else dir

/-- The most bytes a file name may have (`NAME_MAX` of Linux). -/
def NAME_MAX : Nat := 255

/-- The bound on the bytes of a path handed to the system, the closing zero
byte counted (`PATH_MAX` of Linux). -/
def PATH_MAX : Nat := 4096

/-- The last component of `p`: what follows the last separator of `p`. -/
def baseName (p : Str) : Str :=
  (p.reverse.takeWhile (fun c => c != '/')).reverse

/-- `fs.writeFileSync(p, content, "utf8")` at time `now`: an existing regular
file gets the content and the time, a new file is created when the directory
that holds it exists; `none` when the call throws (`ENAMETOOLONG` for a file
name of more than `NAME_MAX` bytes or a path of `PATH_MAX` bytes or more, the
path written as UTF-8; a directory at `p`; a name ending in a separator; no
directory to hold the file). -/
def writeFileSync (disk : NoteDisk) (p : Str) (content : Str) (now : Nat) : Option NoteDisk :=
  if NAME_MAX < utf8Length (baseName p) ∨ PATH_MAX ≤ utf8Length p then none
  else if p.getLast? = some '/' ∨ disk.any (fun n => decide (n.path = p) && n.isDirectory) then
    none
  else if disk.any (fun n => decide (n.path = p)) then
    some (disk.map (fun n => if n.path = p then { n with content := content, mtime := now }
      else n))
  else if disk.any (fun n => decide (n.path = parentPath p) && n.isDirectory) then
    some (disk ++ [{ path := p, isDirectory := false, content := content, mtime := now }])
  else none

/-- `fs.unlinkSync(p)`: removes the regular file `p`; `none` when the call
throws (nothing there, or a directory). -/
def unlinkSync (disk : NoteDisk) (p : Str) : Option NoteDisk :=
  if disk.any (fun n => decide (n.path = p) && !n.isDirectory) then
    some (disk.filter (fun n => decide (n.path ≠ p)))
  else none

end notefs

/-- `s.endsWith(suffix)`. -/
def endsWith (s suffix : Str) : Bool := startsWith s.reverse suffix.reverse

/-- `s.replace(pattern, replacement)` for a string pattern: the first
occurrence only. -/
def replaceFirst (pattern replacement : Str) : Str → Str
  | [] => if pattern = [] then replacement else []
  | c :: s =>
    if startsWith (c :: s) pattern then replacement ++ (c :: s).drop pattern.length
    else c :: replaceFirst pattern replacement s

/-- The character class `[a-zA-Z0-9_\-\s]`. -/
def isIdChar (c : Char) : Bool :=
  c.isAlphanum || c == '_' || c == '-' || isWhiteSpace c

/-- The id validation of get and delete, `/^[a-zA-Z0-9_\-\s]+$/.test(noteId)`. -/
def idRegexTest (noteId : Str) : Bool :=
  decide (noteId ≠ []) && noteId.all isIdChar

/-- The title sanitizer of upsert,
`title.replace(/[^a-zA-Z0-9_\-\s]/g, "").trim()`. -/
def sanitizeTitle (title : Str) : Str :=
  trim (title.filter isIdChar)

/-- The chain `validateNote` followed by `handleValidationErrors`: the title is
trimmed and must have 1 to 100 characters, the content at most 10000. `none`
when the request is answered 400, otherwise the trimmed title left in
`req.body`. -/
def validateNote (title content : Str) : Option Str :=
  let t := trim title
  if 1 ≤ t.length ∧ t.length ≤ 100 ∧ content.length ≤ 10000 then some t else none

/-- A note as the notes routes return it. -/
structure NoteEntry where
  id : Str
  title : Str
  content : Str
  lastModified : Nat
  size : Nat
deriving DecidableEq, Repr

/-- What a handler of the notes router does with the response. -/
inductive NoteResponse where
  | error (status : Nat) (error : Str)
  | notes (entries : List NoteEntry)
  | note (entry : NoteEntry)
  | saved (entry : NoteEntry)
  | deleted
  | nextError
deriving DecidableEq, Repr

/-- The HTTP status a notes handler sets itself (`next(error)` sets none
here). -/
def NoteResponse.status : NoteResponse → Option Nat
  | .error status _ => some status
  | .notes _ => some 200
  | .note _ => some 200
  | .saved _ => some 200
  | .deleted => some 200
  | .nextError => none

/-- The notes directory, `path.join(__dirname, "../notes")`. -/
def notesDir (dirname : Str) : Str :=
  path.join [dirname, "../notes".toList]

/-- The file of a note, `path.join(notesDir, id + ".txt")`. -/
def noteFilePath (dirname noteId : Str) : Str :=
  path.join [notesDir dirname, noteId ++ ".txt".toList]

/-- The callback of the notes listing, for one `.txt` name of the notes
directory; `none` when `statSync` or `readFileSync` throws. -/
def listedNote (dirname : Str) (disk : NoteDisk) (filename : Str) : Option NoteEntry :=
  let filePath := path.join [notesDir dirname, filename]
  match notefs.statSync disk filePath with
  | none => none
  | some stats =>
    match notefs.readFileSync disk filePath with
    | none => none
    | some content =>
      some { id := replaceFirst ".txt".toList [] filename
             title := replaceFirst ".txt".toList [] filename
             content := content
             lastModified := stats.mtime
             size := utf8Length stats.content }

/-- The comparator of the listing, `new Date(b.lastModified) - new
Date(a.lastModified)`, as the order it sorts by: `a` may come before `b` when
it was modified no earlier. -/
def newerFirst (a b : NoteEntry) : Prop := b.lastModified ≤ a.lastModified

instance : DecidableRel newerFirst := fun a b => Nat.decLe b.lastModified a.lastModified

/-- Handler of `GET /` of the notes router: the `.txt` names of the notes
directory, one note each, sorted (stably, as `Array.prototype.sort` does) by
modification time, newest first. -/
def listNotesHandler (dirname : Str) (disk : NoteDisk) : NoteResponse :=
  if !notefs.existsSync disk (notesDir dirname) then .notes []
  else
    match mapOrThrow (listedNote dirname disk)
        ((notefs.readdirSync disk (notesDir dirname)).filter
          (fun file => endsWith file ".txt".toList)) with
    | some notes => .notes (List.insertionSort newerFirst notes)
    | none => .nextError

/-- Handler of `GET /:id` of the notes router. -/
def getNoteHandler (dirname : Str) (disk : NoteDisk) (noteId : Str) : NoteResponse :=
  if !idRegexTest noteId then .error 400 "Invalid note ID".toList
  else
    let filePath := noteFilePath dirname noteId
    if !notefs.existsSync disk filePath then .error 404 "Note not found".toList
    else
      match notefs.readFileSync disk filePath with
      | none => .nextError
      | some content =>
        match notefs.statSync disk filePath with
        | none => .nextError
        | some stats =>
          .note { id := noteId
                  title := noteId
                  content := content
                  lastModified := stats.mtime
                  size := utf8Length stats.content }

/-- Handler of `POST /` of the notes router, on the validated body, with the
file system it leaves; `now` is the time of the write. -/
def saveNoteHandler (dirname : Str) (disk : NoteDisk) (now : Nat) (title content : Str) :
    NoteResponse × NoteDisk :=
  let sanitizedTitle := sanitizeTitle title
  if sanitizedTitle = [] then (.error 400 "Invalid title".toList, disk)
  else
    let filePath := noteFilePath dirname sanitizedTitle
    match notefs.writeFileSync disk filePath content now with
    | none => (.nextError, disk)
    | some disk1 =>
      match notefs.statSync disk1 filePath with
      | none => (.nextError, disk1)
      | some stats =>
        (.saved { id := sanitizedTitle
                  title := sanitizedTitle
                  content := content
                  lastModified := stats.mtime
                  size := utf8Length stats.content }, disk1)

/-- Handler of `DELETE /:id` of the notes router, with the file system it
leaves. -/
def deleteNoteHandler (dirname : Str) (disk : NoteDisk) (noteId : Str) :
    NoteResponse × NoteDisk :=
  if !idRegexTest noteId then (.error 400 "Invalid note ID".toList, disk)
  else
    let filePath := noteFilePath dirname noteId
    if !notefs.existsSync disk filePath then (.error 404 "Note not found".toList, disk)
    else
      match notefs.unlinkSync disk filePath with
      | some disk1 => (.deleted, disk1)
      | none => (.nextError, disk)

/-- The routes of the notes router, with their parameters. -/
inductive NotesRoute where
  | list
  | get (id : Str)
  | upsert (title content : Str)
  | delete (id : Str)
deriving DecidableEq, Repr

/-- The notes router: `router.use(protect)` first, then the route; the upsert
route validates the body before its handler and writes at time
`env.clock 0`. -/
def notesRouter (env : Env) (req : Request) (route : NotesRoute) (disk : NoteDisk) :
    NoteResponse × NoteDisk :=
  match protect env.jwtVerify req with
  | .reject status error => (.error status error, disk)
  | .next _ =>
    match route with
    | .list => (listNotesHandler env.dirname disk, disk)
    | .get id => (getNoteHandler env.dirname disk id, disk)
    | .upsert title content =>
      match validateNote title content with
      | none => (.error 400 "Validation failed".toList, disk)
      | some t => saveNoteHandler env.dirname disk (env.clock 0) t content
    | .delete id => deleteNoteHandler env.dirname disk id

/-- The middleware of `index.js` that runs before the routers: every string of
the body goes through the filter `xss`. Only the upsert route has a body. -/
def xssMiddleware (xss : Str → Str) : NotesRoute → NotesRoute
  | .upsert title content => .upsert (xss title) (xss content)
  | route => route

/-- A request to `/api/notes` as the application handles it: the body filter
of `index.js`, then the notes router. -/
def notesApi (xss : Str → Str) (env : Env) (req : Request) (route : NotesRoute)
    (disk : NoteDisk) : NoteResponse × NoteDisk :=
  notesRouter env req (xssMiddleware xss route) disk

/-- The filter `xss` on text that holds no tag of its white list: the angle
brackets are written as entities, everything else is kept. -/
def sampleXss (s : Str) : Str :=
  s.flatMap (fun c => if c = '<' then "&lt;".toList else if c = '>' then "&gt;".toList else [c])

/-- A notes file system: the notes directory with two notes. -/
def sampleNotes : NoteDisk :=
  [ ⟨"/app/server/notes".toList, true, [], 0⟩,
    ⟨"/app/server/notes/todo.txt".toList, false, "milk".toList, 100⟩,
    ⟨"/app/server/notes/My Note.txt".toList, false, "hello".toList, 300⟩ ]

/-- A path segment that normalisation keeps as it is: not empty, neither `.`
nor `..`, and without a separator. -/
def IsPlainSegment (seg : Str) : Prop :=
  seg ≠ [] ∧ seg ≠ ['.'] ∧ seg ≠ ['.', '.'] ∧ '/' ∉ seg

/-- An absolute path in normal form below the root: a separator followed by
plain segments joined by separators. -/
def IsCleanPath (p : Str) : Prop :=
  ∃ segs : List Str, segs ≠ [] ∧ (∀ s ∈ segs, IsPlainSegment s) ∧ p = '/' :: joinWith '/' segs

/-! ## `index.js`: the routers as the application mounts them -/

/-- The state the protected routers work on: the uploads directory and the
share registry of the files router, the notes directory of the notes
router. -/
structure AppState where
  files : FilesState
  notes : NoteDisk
deriving DecidableEq, Repr

/-- A request to `/api/files` or to `/api/notes`. -/
inductive ApiRoute where
  | files (route : FilesRoute)
  | notes (route : NotesRoute)
deriving DecidableEq, Repr

/-- The response of either router. -/
inductive ApiResponse where
  | files (response : Response)
  | notes (response : NoteResponse)
deriving DecidableEq, Repr

/-- The HTTP status of a response of either router. -/
def ApiResponse.status : ApiResponse → Option Nat
  | .files response => response.status
  | .notes response => response.status

/-- The application on the two protected mount points,
`app.use("/api/files", fileRoutes)` and `app.use("/api/notes", noteRoutes)`. -/
def api (xss : Str → Str) (env : Env) (req : Request) (route : ApiRoute) (st : AppState) :
    ApiResponse × AppState :=
  match route with
  | .files r =>
    let out := filesRouter env req r st.files
    (.files out.1, { st with files := out.2 })
  | .notes r =>
    let out := notesApi xss env req r st.notes
    (.notes out.1, { st with notes := out.2 })

/-- A batch of one upload. -/
def samplePart : UploadPart :=
  { fieldname := "files".toList
    originalname := "paper.pdf".toList
    mimetype := "application/pdf".toList
    size := 1024
    now := 1700000000001
    uuid := "123e4567-e89b-42d3-a456-426614174001".toList
    id := "123e4567-e89b-42d3-a456-426614174002".toList
    uploadDate := 1700000000002 }

/-! ## The session token (library `jsonwebtoken`, modelled from the specification) -/

/-- Modelled from the spec: the text encoding used inside a token, which the
library `jsonwebtoken` (not part of the repository) does by base64url: every
character becomes its code in decimal followed by `_`, so the result holds
neither a space nor a dot. -/
def encodeText (s : Str) : Str :=
  s.flatMap (fun c => Nat.toDigits 10 c.toNat ++ ['_'])

/-- Modelled from the spec: reading a decimal number, `none` when the text is
not a non-empty string of digits. -/
def parseNat (s : Str) : Option Nat :=
  if s ≠ [] ∧ s.all Char.isDigit then
    some (s.foldl (fun acc c => 10 * acc + (c.toNat - 48)) 0)
  else none

/-- Modelled from the spec: decoding the `_`-terminated pieces of an encoded
text. -/
def decodePieces : List Str → Option Str
  | [] => none
  | [last] => if last = [] then some [] else none
  | piece :: rest =>
    match parseNat piece, decodePieces rest with
    | some n, some s => some (Char.ofNat n :: s)
    | _, _ => none

/-- Modelled from the spec: the inverse of `encodeText`, `none` on text that is
not an encoding. -/
def decodeText (s : Str) : Option Str := decodePieces (split '_' s)

/-- Modelled from the spec: `issue(subjectId)` of the Session Issuer, the
library call `jwt.sign(payload, JWT_SECRET, expiresIn)` that is not part of
the repository. The token embeds the subject id, the time of issue `now` and
the expiry `now + expiresIn`, followed by the signature, the keyed code
`mac key` of what precedes it; the four parts are joined by dots. -/
def jwtSign (mac : Str → Str → Nat) (key : Str) (expiresIn now : Nat) (id : Str) : Str :=
  let signingInput :=
    encodeText id ++ '.' :: (Nat.toDigits 10 now ++ '.' :: Nat.toDigits 10 (now + expiresIn))
  signingInput ++ '.' :: Nat.toDigits 10 (mac key signingInput)

/-- Modelled from the spec: `verify(token)` of the Session Issuer at time `now`,
the library call `jwt.verify(token, JWT_SECRET)`: the token must have four
parts that decode, its signature must be the keyed code of the first three
parts, and `now` must be before the expiry; the result is the subject id,
`none` standing for the rejection (the call throws). -/
def jwtVerify (mac : Str → Str → Nat) (key : Str) (now : Nat) (token : Str) : Option Str :=
  match split '.' token with
  | [p1, p2, p3, p4] =>
    match decodeText p1, parseNat p2, parseNat p3 with
    | some id, some _, some expiresAt =>
      if p4 = Nat.toDigits 10 (mac key (p1 ++ '.' :: (p2 ++ '.' :: p3))) ∧ now < expiresAt then
        some id
      else none
    | _, _, _ => none
  | _ => none

/-- Modelled from the spec: a malformed token, one that is not made of four
parts that decode to a subject id and two times. -/
def tokenMalformed (token : Str) : Prop :=
  ¬ ∃ p1 p2 p3 p4 id issuedAt expiresAt, split '.' token = [p1, p2, p3, p4] ∧
    decodeText p1 = some id ∧ parseNat p2 = some issuedAt ∧ parseNat p3 = some expiresAt

/-- Modelled from the spec: a token of four parts whose signature is not the
keyed code of the first three under the signing key. -/
def signatureFails (mac : Str → Str → Nat) (key : Str) (token : Str) : Prop :=
  ∃ p1 p2 p3 p4, split '.' token = [p1, p2, p3, p4] ∧
    p4 ≠ Nat.toDigits 10 (mac key (p1 ++ '.' :: (p2 ++ '.' :: p3)))

/-- A keyed code for the examples: the length of key and message together. -/
def sampleMac : Str → Str → Nat := fun key message => key.length + message.length

/-- The signing key `JWT_SECRET`: the environment variable when it is set to a
non-empty string, otherwise the fallback of the module. -/
def JWT_SECRET (envSecret : Option Str) : Str :=
  match envSecret with
  | some secret =>
    if secret ≠ [] then secret
    else "your-super-secret-jwt-key-change-in-production".toList
  | none => "your-super-secret-jwt-key-change-in-production".toList

/-- The lifetime `JWT_EXPIRES_IN` in milliseconds: the environment setting when
there is one, otherwise `"24h"`. -/
def JWT_EXPIRES_IN (envExpiresIn : Option Nat) : Nat :=
  envExpiresIn.getD (24 * 60 * 60 * 1000)

/-- The entry that a node of the file system is owed in the listing, as the
specification reads "one entry per `.txt` file of the notes directory": a
regular file that is a direct child of `dir` and whose name ends in `.txt`
gives the note with that file's content, modification time and size in
bytes, under the id the route derives from the file name; any other node
gives no entry. -/
def noteOfTxtFile (dir : Str) (n : NoteNode) : Option NoteEntry :=
  match fs.childName dir n.path with
  | none => none
  | some name =>
    if endsWith name ".txt".toList = true ∧ n.isDirectory = false then
      some { id := replaceFirst ".txt".toList [] name
             title := replaceFirst ".txt".toList [] name
             content := n.content
             lastModified := n.mtime
             size := utf8Length n.content }
    else none

/-! ## Lemmas on the string helpers -/

theorem split_ne_nil (sep : Char) (s : Str) : split sep s ≠ [] := by
  induction s with
  | nil => simp [split]
  | cons c cs ih =>
    simp only [split]
    split_ifs
    · simp
    · cases h : split sep cs with
      | nil => exact absurd h ih
      | cons a b => simp

theorem joinWith_cons_cons (sep : Char) (a b : Str) (r : List Str) :
    joinWith sep (a :: b :: r) = a ++ sep :: joinWith sep (b :: r) := rfl

theorem joinWith_split (sep : Char) (s : Str) : joinWith sep (split sep s) = s := by
  induction s with
  | nil => simp [split, joinWith]
  | cons c cs ih =>
    simp only [split]
    split_ifs with hc
    · cases h : split sep cs with
      | nil => exact absurd h (split_ne_nil sep cs)
      | cons a b =>
        rw [joinWith_cons_cons, ← h, ih, hc]
        rfl
    · cases h : split sep cs with
      | nil => exact absurd h (split_ne_nil sep cs)
      | cons a b =>
        rw [h] at ih
        cases b with
        | nil =>
          simp only [joinWith] at ih ⊢
          rw [ih]
        | cons b1 b2 =>
          rw [joinWith_cons_cons] at ih ⊢
          rw [List.cons_append, ih]

theorem split_of_not_mem (sep : Char) (a : Str) (h : sep ∉ a) : split sep a = [a] := by
  induction a with
  | nil => rfl
  | cons c cs ih =>
    have hc : ¬ c = sep := fun e => h (by simp [e])
    have hcs : sep ∉ cs := fun e => h (List.mem_cons_of_mem _ e)
    simp [split, hc, ih hcs]

theorem split_append_sep (sep : Char) (a rest : Str) (h : sep ∉ a) :
    split sep (a ++ sep :: rest) = a :: split sep rest := by
  induction a with
  | nil => simp [split]
  | cons c cs ih =>
    have hc : ¬ c = sep := fun e => h (by simp [e])
    have hcs : sep ∉ cs := fun e => h (List.mem_cons_of_mem _ e)
    simp [split, hc, ih hcs]

/-- Cancellation on the left of a separator that the prefixes do not contain. -/
theorem append_sep_cancel (sep : Char) (a b r1 r2 : Str) (ha : sep ∉ a) (hb : sep ∉ b)
    (h : a ++ sep :: r1 = b ++ sep :: r2) : a = b ∧ r1 = r2 := by
  have hs := congrArg (split sep) h
  rw [split_append_sep sep a r1 ha, split_append_sep sep b r2 hb] at hs
  have hab : a = b := (List.cons.inj hs).1
  subst hab
  exact ⟨rfl, by simpa using h⟩

/-- The decimal rendering of a number consists of digits. -/
theorem toDigitsCore_isDigit (fuel : Nat) :
    ∀ (n : Nat) (ds : List Char), (∀ c ∈ ds, c.isDigit = true) →
      ∀ c ∈ Nat.toDigitsCore 10 fuel n ds, c.isDigit = true := by
  have hd : ∀ m, m < 10 → (Nat.digitChar m).isDigit = true := by decide
  induction fuel with
  | zero => intro n ds h; simpa [Nat.toDigitsCore] using h
  | succ f ih =>
    intro n ds h
    have hds : ∀ c ∈ Nat.digitChar (n % 10) :: ds, c.isDigit = true := by
      intro c hc
      rcases List.mem_cons.1 hc with rfl | hc
      · exact hd _ (Nat.mod_lt _ (by decide))
      · exact h c hc
    simp only [Nat.toDigitsCore]
    split_ifs
    · exact hds
    · exact ih _ _ hds

theorem toDigits_isDigit (n : Nat) : ∀ c ∈ Nat.toDigits 10 n, c.isDigit = true :=
  toDigitsCore_isDigit _ n [] (by simp)

theorem not_mem_of_isDigit (s : Str) (h : ∀ c ∈ s, c.isDigit = true) : '-' ∉ s :=
  fun hm => absurd (h _ hm) (by decide)

/-- The shape of a version-4 UUID: five groups without `-`, of 8, 4, 4, 4 and
12 characters. -/
theorem isUuidV4_shape (u : Str) (h : isUuidV4 u = true) :
    ∃ g1 g2 g3 g4 g5 : Str,
      u = g1 ++ '-' :: (g2 ++ '-' :: (g3 ++ '-' :: (g4 ++ '-' :: g5))) ∧
      g1.length = 8 ∧ g2.length = 4 ∧ g3.length = 4 ∧ g4.length = 4 ∧ g5.length = 12 ∧
      '-' ∉ g1 ∧ '-' ∉ g2 ∧ '-' ∉ g3 ∧ '-' ∉ g4 ∧ '-' ∉ g5 := by
  unfold isUuidV4 at h
  split at h
  · rename_i g1 g2 g3 g4 g5 hs
    have hu := joinWith_split '-' u
    rw [hs] at hu
    simp only [Bool.and_eq_true, beq_iff_eq, List.all_eq_true] at h
    obtain ⟨⟨⟨⟨⟨⟨⟨h1, h2⟩, h3⟩, h4⟩, h5⟩, hhex⟩, _⟩, _⟩ := h
    have hno : ∀ g : Str, (∀ c ∈ g, c ∈ g1 ++ g2 ++ g3 ++ g4 ++ g5) → '-' ∉ g := by
      intro g hg hm
      exact absurd (hhex _ (hg _ hm)) (by decide)
    refine ⟨g1, g2, g3, g4, g5, ?_, h1, h2, h3, h4, h5, ?_, ?_, ?_, ?_, ?_⟩
    · rw [← hu]; rfl
    all_goals exact hno _ (fun c hc => by simp [hc])
  · simp at h

theorem isUuidV4_length (u : Str) (h : isUuidV4 u = true) : u.length = 36 := by
  obtain ⟨g1, g2, g3, g4, g5, hu, h1, h2, h3, h4, h5, _⟩ := isUuidV4_shape u h
  subst hu
  simp [h1, h2, h3, h4, h5]

theorem joinWith_cons_split (sep : Char) (a s : Str) :
    joinWith sep (a :: split sep s) = a ++ sep :: s := by
  cases h : split sep s with
  | nil => exact absurd h (split_ne_nil sep s)
  | cons b r => rw [joinWith_cons_cons, ← h, joinWith_split]

/-- The listing's extraction applied to a storage name: the first two
`-`-separated pieces go, which are the timestamp and the first group of the
UUID; the other four groups stay in front of the original name. -/
theorem listedOriginalName_uniqueName (t uuid n : Str) (ht : ∀ c ∈ t, c.isDigit = true)
    (hu : isUuidV4 uuid = true) :
    listedOriginalName (uniqueName t uuid n) = uuid.drop 9 ++ '-' :: n := by
  obtain ⟨g1, g2, g3, g4, g5, rfl, h1, _, _, _, _, n1, n2, n3, n4, n5⟩ := isUuidV4_shape uuid hu
  have hd : (g1 ++ '-' :: (g2 ++ '-' :: (g3 ++ '-' :: (g4 ++ '-' :: g5)))).drop 9
      = g2 ++ '-' :: (g3 ++ '-' :: (g4 ++ '-' :: g5)) := by
    rw [List.drop_append_eq_append_drop, List.drop_of_length_le (by omega), h1]
    rfl
  rw [hd]
  unfold listedOriginalName uniqueName
  simp only [List.append_assoc, List.cons_append]
  rw [split_append_sep _ _ _ (not_mem_of_isDigit t ht), split_append_sep _ _ _ n1,
    split_append_sep _ _ _ n2, split_append_sep _ _ _ n3, split_append_sep _ _ _ n4,
    split_append_sep _ _ _ n5]
  simp only [List.drop_succ_cons, List.drop_zero]
  rw [joinWith_cons_cons, joinWith_cons_cons, joinWith_cons_cons, joinWith_cons_split]

theorem mapOrThrow_mem {α β : Type} (f : α → Option β) :
    ∀ (xs : List α) (ys : List β), mapOrThrow f xs = some ys →
      ∀ y ∈ ys, ∃ x ∈ xs, f x = some y := by
  intro xs
  induction xs with
  | nil =>
    intro ys h y hy
    simp [mapOrThrow] at h
    subst h
    simp at hy
  | cons x xs ih =>
    intro ys h y hy
    simp only [mapOrThrow] at h
    cases hx : f x with
    | none => simp [hx] at h
    | some y0 =>
      cases hr : mapOrThrow f xs with
      | none => simp [hx, hr] at h
      | some ys0 =>
        simp [hx, hr] at h
        subst h
        rcases List.mem_cons.1 hy with rfl | hy1
        · exact ⟨x, by simp, hx⟩
        · obtain ⟨x1, hx1, hfx1⟩ := ih ys0 hr y hy1
          exact ⟨x1, List.mem_cons_of_mem _ hx1, hfx1⟩

/-- Every entry of a listing carries the extraction of its own file name. -/
theorem listHandler_originalName (dirname : Str) (disk : Disk) (entries : List FileEntry)
    (h : listHandler dirname disk = .files entries) :
    ∀ e ∈ entries, e.originalName = listedOriginalName e.filename := by
  intro e he
  unfold listHandler at h
  split_ifs at h with hex
  · cases h
    simp at he
  · split at h
    · rename_i files hfiles
      cases h
      obtain ⟨x, _, hx⟩ := mapOrThrow_mem _ _ _ hfiles e he
      unfold listEntry at hx
      dsimp only at hx
      split at hx
      · cases hx
      · cases hx
        rfl
    · cases h

/-- C8 (as the code behaves): for every upload stored under
`<timestamp>-<uuid v4>-<n>`, the entry that `GET /` returns for that storage
name has `originalName` equal to the last four groups of the UUID, a `-` and
`n`, which is never `n` itself: the extraction drops two pieces, the UUID
brings five. -/
theorem listing_originalName_keeps_uuid_groups (dirname : Str) (disk : Disk)
    (entries : List FileEntry) (e : FileEntry) (now : Nat) (uuid n : Str)
    (hu : isUuidV4 uuid = true) (hl : listHandler dirname disk = .files entries)
    (he : e ∈ entries) (hf : e.filename = filename now uuid n) :
    e.originalName = uuid.drop 9 ++ '-' :: n ∧ e.originalName ≠ n := by
  have h1 : e.originalName = uuid.drop 9 ++ '-' :: n := by
    rw [listHandler_originalName dirname disk entries hl e he, hf]
    exact listedOriginalName_uniqueName _ uuid n (toDigits_isDigit now) hu
  refine ⟨h1, fun h2 => ?_⟩
  have hlen := congrArg List.length (h1.symm.trans h2)
  simp at hlen
  omega

/-- Injectivity of the template string, from what it needs: no `-` in the
timestamps and UUIDs of equal length. -/
theorem uniqueName_inj_of_length (t1 t2 u1 u2 n1 n2 : Str) (ht1 : '-' ∉ t1) (ht2 : '-' ∉ t2)
    (hlen : u1.length = u2.length) (h : uniqueName t1 u1 n1 = uniqueName t2 u2 n2) :
    t1 = t2 ∧ u1 = u2 ∧ n1 = n2 := by
  unfold uniqueName at h
  obtain ⟨ht, hr⟩ := append_sep_cancel '-' t1 t2 _ _ ht1 ht2 h
  obtain ⟨hu, hn⟩ := List.append_inj hr hlen
  exact ⟨ht, hu, by simpa using hn⟩

/-- The number a decimal rendering stands for. -/
theorem foldl_toDigitsCore (fuel : Nat) :
    ∀ (n : Nat) (ds : List Char), n < fuel →
      (Nat.toDigitsCore 10 fuel n ds).foldl (fun acc c => 10 * acc + (c.toNat - 48)) 0
        = ds.foldl (fun acc c => 10 * acc + (c.toNat - 48)) n := by
  have hd : ∀ m, m < 10 → (Nat.digitChar m).toNat - 48 = m := by decide
  induction fuel with
  | zero => intro n ds h; omega
  | succ f ih =>
    intro n ds h
    simp only [Nat.toDigitsCore]
    split_ifs with h0
    · have hn : n % 10 = n := by omega
      simp only [List.foldl_cons, hd _ (Nat.mod_lt n (by decide))]
      congr 1
      omega
    · rw [ih (n / 10) _ (by omega)]
      simp only [List.foldl_cons, hd _ (Nat.mod_lt n (by decide))]
      congr 1
      omega

theorem toDigits_injective (m n : Nat) (h : Nat.toDigits 10 m = Nat.toDigits 10 n) : m = n := by
  have hm := foldl_toDigitsCore (m + 1) m [] (by omega)
  have hn := foldl_toDigitsCore (n + 1) n [] (by omega)
  unfold Nat.toDigits at h
  rw [h, hn] at hm
  simpa using hm.symm

/-- The upload filename function is injective in the clock value, the UUID
and the original name. -/
theorem filename_injective (now1 now2 : Nat) (u1 u2 n1 n2 : Str)
    (hu1 : isUuidV4 u1 = true) (hu2 : isUuidV4 u2 = true)
    (h : filename now1 u1 n1 = filename now2 u2 n2) : now1 = now2 ∧ u1 = u2 ∧ n1 = n2 := by
  obtain ⟨ht, hu, hn⟩ := uniqueName_inj_of_length _ _ u1 u2 n1 n2
    (not_mem_of_isDigit _ (toDigits_isDigit now1)) (not_mem_of_isDigit _ (toDigits_isDigit now2))
    (by rw [isUuidV4_length u1 hu1, isUuidV4_length u2 hu2]) h
  exact ⟨toDigits_injective _ _ ht, hu, hn⟩

/-- C9: the storage-name construction is injective on decimal timestamps and
version-4 UUIDs: equal storage names come from equal timestamps, equal UUIDs
and equal original names, so uploads that differ in one of the three get
different storage names. -/
theorem uniqueName_injective (t1 t2 u1 u2 n1 n2 : Str)
    (ht1 : ∀ c ∈ t1, c.isDigit = true) (ht2 : ∀ c ∈ t2, c.isDigit = true)
    (hu1 : isUuidV4 u1 = true) (hu2 : isUuidV4 u2 = true)
    (h : uniqueName t1 u1 n1 = uniqueName t2 u2 n2) : t1 = t2 ∧ u1 = u2 ∧ n1 = n2 :=
  uniqueName_inj_of_length t1 t2 u1 u2 n1 n2 (not_mem_of_isDigit t1 ht1)
    (not_mem_of_isDigit t2 ht2) (by rw [isUuidV4_length u1 hu1, isUuidV4_length u2 hu2]) h

/-! ## Lemmas on the share map and on login -/

theorem setProperty_cons_ne (e : Str × ShareData) (es : List (Str × ShareData)) (key : Str)
    (value : ShareData) (he : ¬ e.1 = key) :
    setProperty (e :: es) key value = e :: setProperty es key value := by
  unfold setProperty
  by_cases hany : es.any (fun e => decide (e.1 = key)) = true
  · simp [hany, he]
  · simp [hany, he]

theorem find_setProperty (obj : List (Str × ShareData)) (key : Str) (value : ShareData) :
    (setProperty obj key value).find? (fun e => decide (e.1 = key)) = some (key, value) := by
  induction obj with
  | nil => simp [setProperty]
  | cons e es ih =>
    by_cases he : e.1 = key
    · simp [setProperty, he]
    · rw [setProperty_cons_ne e es key value he, List.find?_cons_of_neg _ (by simp [he])]
      exact ih

theorem getProperty_setProperty (obj : List (Str × ShareData)) (key : Str)
    (value : ShareData) : getProperty (setProperty obj key value) key = .own value := by
  simp [getProperty, find_setProperty]

theorem getProperty_deleteProperty (obj : List (Str × ShareData)) (key : Str)
    (g : ShareData) : getProperty (deleteProperty obj key) key ≠ .own g := by
  have hnone : (deleteProperty obj key).find? (fun e => decide (e.1 = key)) = none := by
    simp [deleteProperty, List.find?_eq_none]
  unfold getProperty
  rw [hnone]
  dsimp only
  split_ifs <;> simp

theorem validateLogin_sunny (password : Str) (hlen : 6 ≤ password.length) :
    validateLogin "sunny".toList password = some "sunny".toList := by
  have ht : trim "sunny".toList = "sunny".toList := by decide
  unfold validateLogin
  simp only [ht]
  rw [if_pos]
  exact ⟨by decide, by decide, by decide, by decide, hlen⟩

/-! ## The claims -/

/-- C1 (evaluation at the failing input): the name `../uploads-old/x` resolves
to `/app/server/uploads-old/x`, which is neither the uploads root
`/app/server/uploads` nor below it, yet the prefix test of the guard lets it
through: the download handler streams that file and the delete handler
removes it, whatever the working directory. -/
theorem guard_passes_sibling_with_root_prefix :
    insideRoot (path.resolve "/app".toList (uploadsDir sampleDirname))
        (path.resolve "/app".toList
          (path.join [sampleDirname, "../uploads".toList, "../uploads-old/x".toList])) = false ∧
    (∀ cwd, downloadHandler sampleDirname cwd sampleDisk "../uploads-old/x".toList
        = .download "/app/server/uploads-old/x".toList) ∧
    (∀ cwd, deleteHandler sampleDirname cwd sampleDisk "../uploads-old/x".toList
        = (.deleted, sampleDiskAfterDelete)) :=
  ⟨by decide, fun _ => rfl, fun _ => rfl⟩

/-- C2 (evaluation at the failing input): the sample grant is in the registry,
not expired at time 500, and its target exists, yet the redeem request
without header and cookie is answered 401 by the gate of the router: the
share link the share route hands out opens nothing for who holds only the
link. -/
theorem shared_without_token_is_401 :
    getProperty [(sampleShareId, sampleGrant)] sampleShareId = .own sampleGrant ∧
    ¬ (sampleEnv.clock 0 > sampleGrant.expiresAt) ∧
    fs.existsSync sampleDisk
      (path.join [sampleDirname, "../uploads".toList, sampleGrant.filename]) = true ∧
    filesRouter sampleEnv ⟨none, none⟩ (.shared sampleShareId) sampleState
      = (.error 401 "You are not logged in! Please log in to get access.".toList,
          sampleState) := by
  decide

/-- The redeem route as the router runs it: for every grant that is present,
not expired and whose target exists, it streams the target for every request
that passes `protect`, and answers 401, leaving the state as it is, when the
request has neither an Authorization header nor a jwt cookie. -/
theorem shared_route_is_behind_protect (env : Env) (st : FilesState) (shareId : Str)
    (obj : List (Str × ShareData)) (g : ShareData)
    (hmap : st.shareMap = some obj) (hown : getProperty obj shareId = .own g)
    (hlive : ¬ (env.clock 0 > g.expiresAt))
    (hfile : fs.existsSync st.disk
      (path.join [env.dirname, "../uploads".toList, g.filename]) = true) :
    filesRouter env ⟨none, none⟩ (.shared shareId) st
      = (.error 401 "You are not logged in! Please log in to get access.".toList, st) ∧
    ∀ req id, protect env.jwtVerify req = .next id →
      filesRouter env req (.shared shareId) st
        = (.download (path.join [env.dirname, "../uploads".toList, g.filename]), st) := by
  obtain ⟨disk, shareMap⟩ := st
  simp only at hmap hfile
  subst hmap
  constructor
  · rfl
  · intro req id hreq
    unfold filesRouter
    rw [hreq]
    simp only [sharedHandler, hown, if_neg hlive, hfile]
    rfl

theorem shared_route_is_behind_protect_witness :
    filesRouter sampleEnv ⟨none, none⟩ (.shared sampleShareId) sampleState
      = (.error 401 "You are not logged in! Please log in to get access.".toList,
          sampleState) ∧
    ∀ req id, protect sampleEnv.jwtVerify req = .next id →
      filesRouter sampleEnv req (.shared sampleShareId) sampleState
        = (.download (path.join [sampleEnv.dirname, "../uploads".toList,
            sampleGrant.filename]), sampleState) :=
  shared_route_is_behind_protect sampleEnv sampleState sampleShareId
    [(sampleShareId, sampleGrant)] sampleGrant rfl (by decide) (by decide) (by decide)

/-- C3 (evaluation at the failing input): an authenticated
`POST /share/..%2Fnotes%2Fsecret.txt` records a grant for the name
`../notes/secret.txt`, which resolves outside the uploads root, and the
redeem of that grant streams `/app/server/notes/secret.txt`. -/
theorem share_records_grant_outside_root :
    insideRoot (path.resolve "/app".toList (uploadsDir sampleDirname))
        (path.resolve "/app".toList
          (path.join [sampleDirname, "../uploads".toList, "../notes/secret.txt".toList]))
      = false ∧
    (filesRouter sampleEnv ⟨some "Bearer good".toList, none⟩
        (.share "../notes/secret.txt".toList "http".toList "localhost:5000".toList)
        ⟨sampleDisk, none⟩).2
      = ⟨sampleDisk, some [(sampleShareId,
          ⟨"../notes/secret.txt".toList, 500, 500 + 86400000⟩)]⟩ ∧
    (filesRouter sampleEnv ⟨some "Bearer good".toList, none⟩ (.shared sampleShareId)
        ⟨sampleDisk, some [(sampleShareId,
          ⟨"../notes/secret.txt".toList, 500, 500 + 86400000⟩)]⟩).1
      = .download "/app/server/notes/secret.txt".toList := by
  decide

/-- What an accepted login does to the record: one login with the configured
username and a password that `bcrypt.compare` accepts against the configured
hash, if there is one, leaves `ADMIN_USER` without its password hash. -/
theorem login_clears_admin_password (bcryptCompare : Str → Str → Bool)
    (jwtSign : Str → Str) (jwtVerify : Str → Option Str) (password : Str)
    (hlen : 6 ≤ password.length)
    (hcmp : ∀ hash, ADMIN_USER.password = some hash → bcryptCompare password hash = true) :
    (adminAfter bcryptCompare jwtSign jwtVerify ADMIN_USER
        [.login "sunny".toList password]).password = none ∧
    adminAfter bcryptCompare jwtSign jwtVerify ADMIN_USER [.login "sunny".toList password]
      ≠ ADMIN_USER := by
  have h : adminAfter bcryptCompare jwtSign jwtVerify ADMIN_USER
      [.login "sunny".toList password] = { ADMIN_USER with password := none } := by
    have hc := hcmp _ rfl
    simp only [adminAfter, List.foldl, authRouter, login, validateLogin_sunny password hlen,
      loginHandler, ADMIN_USER, hc, createSendToken]
    rfl
  rw [h]
  exact ⟨rfl, by decide⟩

/-- What follows an accepted login: if `bcrypt.compare` accepts a password
against the configured hash, the first login with it answers 200 with a
token; in the state it leaves, the same login is passed on as an error, and
no login request at all is answered 200. -/
theorem second_login_fails (bcryptCompare : Str → Str → Bool) (jwtSign : Str → Str)
    (password : Str) (hlen : 6 ≤ password.length)
    (hcmp : ∀ hash, ADMIN_USER.password = some hash → bcryptCompare password hash = true) :
    (login bcryptCompare jwtSign ADMIN_USER "sunny".toList password).1.status = some 200 ∧
    login bcryptCompare jwtSign
        (login bcryptCompare jwtSign ADMIN_USER "sunny".toList password).2
        "sunny".toList password
      = (.nextError, (login bcryptCompare jwtSign ADMIN_USER "sunny".toList password).2) ∧
    ∀ username pw,
      (login bcryptCompare jwtSign
        (login bcryptCompare jwtSign ADMIN_USER "sunny".toList password).2
        username pw).1.status ≠ some 200 := by
  have hc : bcryptCompare password
      "$2a$12$LQv3c1yqBWVHxkd0LHAkCOYz6TtxMQJqhN8/LewdBPj3bp.Vp/PpO".toList = true :=
    hcmp _ rfl
  have h1 : login bcryptCompare jwtSign ADMIN_USER "sunny".toList password
      = (.token 200 (jwtSign "1".toList) { ADMIN_USER with password := none },
          { ADMIN_USER with password := none }) := by
    simp only [login, validateLogin_sunny password hlen, loginHandler, ADMIN_USER, hc,
      createSendToken, signToken]
    rfl
  rw [h1]
  refine ⟨rfl, ?_, ?_⟩
  · simp only [login, validateLogin_sunny password hlen, loginHandler, ADMIN_USER]
    rfl
  · intro username pw
    unfold login
    cases validateLogin username pw with
    | none => simp [AuthResponse.status]
    | some u =>
      simp only [loginHandler]
      split_ifs <;> simp [AuthResponse.status]

/-- C6 (counterexample): at a redeem time equal to `expiresAt` the grant is
not removed and the request is not answered 404: the target is streamed. -/
theorem shared_at_expiry_instant_still_valid :
    sharedHandler sampleDirname sampleDisk (some [(sampleShareId, sampleGrant)])
        sampleGrant.expiresAt sampleShareId
      = (.download
          "/app/server/uploads/1700000000000-123e4567-e89b-42d3-a456-426614174000-a.txt".toList,
          some [(sampleShareId, sampleGrant)]) := by
  decide

/-- C6 (amended): for every grant in the registry, a redeem at a time
`now > expiresAt` removes that grant and answers 404 (share link has
expired), and a redeem at any time `now ≤ expiresAt`, the instant `expiresAt`
included, treats the grant as valid and keeps the registry as it is. -/
theorem shared_expiry_is_strict (dirname : Str) (disk : Disk)
    (obj : List (Str × ShareData)) (shareId : Str) (g : ShareData) (now : Nat)
    (hown : getProperty obj shareId = .own g) :
    (now > g.expiresAt →
      sharedHandler dirname disk (some obj) now shareId
          = (.error 404 "Share link has expired".toList, some (deleteProperty obj shareId)) ∧
      ∀ g1, getProperty (deleteProperty obj shareId) shareId ≠ .own g1) ∧
    (now ≤ g.expiresAt →
      (sharedHandler dirname disk (some obj) now shareId).2 = some obj ∧
      (sharedHandler dirname disk (some obj) now shareId).1
        ≠ .error 404 "Share link has expired".toList) := by
  constructor
  · intro hnow
    refine ⟨?_, fun g1 => getProperty_deleteProperty obj shareId g1⟩
    simp only [sharedHandler, hown, if_pos hnow]
  · intro hnow
    have hn : ¬ (now > g.expiresAt) := Nat.not_lt.2 hnow
    simp only [sharedHandler, hown, if_neg hn]
    split_ifs
    · refine ⟨rfl, ?_⟩
      show Response.error 404 "Shared file not found".toList
        ≠ Response.error 404 "Share link has expired".toList
      decide
    · exact ⟨rfl, fun h => Response.noConfusion h⟩

theorem shared_expiry_is_strict_witness :
    (1001 > sampleGrant.expiresAt →
      sharedHandler sampleDirname sampleDisk (some [(sampleShareId, sampleGrant)]) 1001
          sampleShareId
          = (.error 404 "Share link has expired".toList,
              some (deleteProperty [(sampleShareId, sampleGrant)] sampleShareId)) ∧
      ∀ g1, getProperty (deleteProperty [(sampleShareId, sampleGrant)] sampleShareId)
        sampleShareId ≠ .own g1) ∧
    (1001 ≤ sampleGrant.expiresAt →
      (sharedHandler sampleDirname sampleDisk (some [(sampleShareId, sampleGrant)]) 1001
        sampleShareId).2 = some [(sampleShareId, sampleGrant)] ∧
      (sharedHandler sampleDirname sampleDisk (some [(sampleShareId, sampleGrant)]) 1001
        sampleShareId).1 ≠ .error 404 "Share link has expired".toList) :=
  shared_expiry_is_strict sampleDirname sampleDisk [(sampleShareId, sampleGrant)]
    sampleShareId sampleGrant 1001 (by decide)

/-- C7 (counterexample): with a clock that reads 0 for `createdAt` and 1 for
`expiresAt`, the grant recorded for the sample upload has
`expiresAt = 86400001`, not `createdAt + 86400000`. -/
theorem share_grant_expiry_not_from_createdAt :
    ∃ g : ShareData,
      (shareHandler sampleDirname sampleDisk none sampleShareId (fun k => k) "http".toList
        "localhost:5000".toList sampleGrant.filename).2 = some [(sampleShareId, g)] ∧
      g.createdAt = 0 ∧ g.expiresAt = 86400001 ∧
      g.expiresAt ≠ g.createdAt + 24 * 60 * 60 * 1000 :=
  ⟨⟨sampleGrant.filename, 0, 86400001⟩, by decide, rfl, rfl, by decide⟩

/-- C7 (amended): every grant recorded by the share handler has `createdAt`
equal to the first clock read and `expiresAt` equal to the second clock read
plus 86,400,000 ms; so `expiresAt = createdAt + 24 h` exactly when the two
reads return the same time, and `expiresAt ≥ createdAt + 24 h` when the
second read is not earlier than the first. -/
theorem share_grant_expiry_from_second_read (dirname : Str) (disk : Disk)
    (shareMap : ShareMap) (uuid : Str) (clock : Nat → Nat) (protocol host filename : Str)
    (hfile : fs.existsSync disk (path.join [dirname, "../uploads".toList, filename]) = true) :
    ∃ obj g, (shareHandler dirname disk shareMap uuid clock protocol host filename).2
        = some obj ∧
      getProperty obj uuid = .own g ∧ g.filename = filename ∧
      g.createdAt = clock 0 ∧ g.expiresAt = clock 1 + 86400000 ∧
      (g.expiresAt = g.createdAt + 86400000 ↔ clock 1 = clock 0) ∧
      (clock 0 ≤ clock 1 → g.createdAt + 86400000 ≤ g.expiresAt) := by
  refine ⟨setProperty (shareMap.getD []) uuid ⟨filename, clock 0, clock 1 + 86400000⟩,
    ⟨filename, clock 0, clock 1 + 86400000⟩, ?_, getProperty_setProperty _ _ _, rfl, rfl, rfl,
    ?_, ?_⟩
  · simp only [shareHandler, hfile]
    rfl
  · dsimp only
    omega
  · dsimp only
    omega

theorem share_grant_expiry_from_second_read_witness :
    ∃ obj g, (shareHandler sampleDirname sampleDisk none sampleShareId (fun k => 7 * k)
        "http".toList "localhost:5000".toList sampleGrant.filename).2 = some obj ∧
      getProperty obj sampleShareId = .own g ∧ g.filename = sampleGrant.filename ∧
      g.createdAt = (fun k => 7 * k) 0 ∧ g.expiresAt = (fun k => 7 * k) 1 + 86400000 ∧
      (g.expiresAt = g.createdAt + 86400000 ↔ (fun k => 7 * k) 1 = (fun k => 7 * k) 0) ∧
      ((fun k => 7 * k) 0 ≤ (fun k => 7 * k) 1 → g.createdAt + 86400000 ≤ g.expiresAt) :=
  share_grant_expiry_from_second_read sampleDirname sampleDisk none sampleShareId
    (fun k => 7 * k) "http".toList "localhost:5000".toList sampleGrant.filename (by decide)

theorem listing_originalName_keeps_uuid_groups_witness :
    sampleEntry.originalName
      = ("123e4567-e89b-42d3-a456-426614174000".toList).drop 9 ++ '-' :: "a.txt".toList ∧
    sampleEntry.originalName ≠ "a.txt".toList :=
  listing_originalName_keeps_uuid_groups sampleDirname sampleDisk [sampleEntry] sampleEntry
    1700000000000 "123e4567-e89b-42d3-a456-426614174000".toList "a.txt".toList
    (by decide) (by decide) (by decide) (by decide)

theorem uniqueName_injective_witness :
    "1700000000000".toList = "1700000000000".toList ∧
    "123e4567-e89b-42d3-a456-426614174000".toList
      = "123e4567-e89b-42d3-a456-426614174000".toList ∧
    "a.txt".toList = "a.txt".toList :=
  uniqueName_injective "1700000000000".toList "1700000000000".toList
    "123e4567-e89b-42d3-a456-426614174000".toList
    "123e4567-e89b-42d3-a456-426614174000".toList "a.txt".toList "a.txt".toList
    (by decide) (by decide) (by decide) (by decide) rfl

/-- C10 (evaluation at the failing inputs): files whose extensions are
`.docm`, `.txtx` and `.mp4x`, none of them on the allow-list, are accepted
when the declared type contains an allow-listed word, because the expression
is matched anywhere in the extension. -/
theorem fileFilter_accepts_longer_extensions :
    fileFilter "macro.docm".toList
        "application/vnd.ms-word.document.macroEnabled.12".toList = .accept ∧
    fileFilter "notes.txtx".toList "application/pdf".toList = .accept ∧
    fileFilter "clip.mp4x".toList "video/mp4".toList = .accept ∧
    path.extname "macro.docm".toList = ".docm".toList ∧
    path.extname "notes.txtx".toList = ".txtx".toList ∧
    path.extname "clip.mp4x".toList = ".mp4x".toList := by
  decide

/-- C11 (evaluation at the failing inputs): the filter tests the declared
type against the same words as the extension, so `.txt` with `text/plain`,
`.mp3` with `audio/mpeg`, `.doc` with `application/msword` and `.avi` with
`video/x-msvideo` are rejected; the six other pairs of the claim are
accepted. -/
theorem fileFilter_rejects_standard_types :
    fileFilter "notes.txt".toList "text/plain".toList
      = .reject "File type not allowed".toList ∧
    fileFilter "song.mp3".toList "audio/mpeg".toList
      = .reject "File type not allowed".toList ∧
    fileFilter "letter.doc".toList "application/msword".toList
      = .reject "File type not allowed".toList ∧
    fileFilter "clip.avi".toList "video/x-msvideo".toList
      = .reject "File type not allowed".toList ∧
    fileFilter "photo.jpg".toList "image/jpeg".toList = .accept ∧
    fileFilter "photo.png".toList "image/png".toList = .accept ∧
    fileFilter "anim.gif".toList "image/gif".toList = .accept ∧
    fileFilter "paper.pdf".toList "application/pdf".toList = .accept ∧
    fileFilter "bundle.zip".toList "application/zip".toList = .accept ∧
    fileFilter "clip.mp4".toList "video/mp4".toList = .accept := by
  decide

/-- C14 (counterexample): a header `Bearer` with nothing after it and a cookie
holding a valid token: the request is answered 401, although the same cookie
alone is granted access. -/
theorem bare_bearer_header_hides_cookie :
    sampleVerify "good".toList = some "1".toList ∧
    protect sampleVerify ⟨some "Bearer".toList, some "good".toList⟩
      = .reject 401 "You are not logged in! Please log in to get access.".toList ∧
    protect sampleVerify ⟨some "Bearer ".toList, some "good".toList⟩
      = .reject 401 "You are not logged in! Please log in to get access.".toList ∧
    protect sampleVerify ⟨none, some "good".toList⟩ = .next "1".toList := by
  decide

theorem startsWith_append (p s : Str) : startsWith (p ++ s) p = true := by
  induction p with
  | nil => cases s <;> rfl
  | cons c p ih => simp [startsWith, ih]

/-- The token `protect` works on when the header starts with `Bearer`. -/
theorem requestToken_bearer (h : Str) (cookie : Option Str)
    (hB : startsWith h "Bearer".toList = true) :
    requestToken ⟨some h, cookie⟩ = (split ' ' h)[1]? := by
  have hne : h ≠ [] := by
    rintro rfl
    exact absurd hB (by decide)
  unfold requestToken
  simp only [hne, hB, ne_eq, not_false_eq_true, and_self, if_true]

/-- The token `protect` works on when there is no header starting with
`Bearer`: the non-empty cookie. -/
theorem requestToken_cookie (auth : Option Str) (cookie : Option Str)
    (hA : ∀ h, auth = some h → startsWith h "Bearer".toList = false) :
    requestToken ⟨auth, cookie⟩ = requestToken ⟨none, cookie⟩ := by
  cases auth with
  | none => rfl
  | some h =>
    have hB := hA h rfl
    unfold requestToken
    simp only [hB, Bool.false_eq_true, and_false, if_false]

/-- C14 (amended): a header that starts with `Bearer` decides alone, the
token being its second space-separated piece and the cookie being ignored
even when that piece is missing; a header that is absent or does not start
with `Bearer` leaves the decision to the jwt cookie, and a valid token there
is granted access; a valid token after `Bearer ` is granted access whatever
the cookie holds. -/
theorem protect_token_source (jwtVerify : Str → Option Str) (h tok id : Str)
    (cookie : Option Str) :
    (startsWith h "Bearer".toList = true →
      requestToken ⟨some h, cookie⟩ = (split ' ' h)[1]? ∧
      protect jwtVerify ⟨some h, cookie⟩ = protect jwtVerify ⟨some h, none⟩) ∧
    (startsWith h "Bearer".toList = false →
      protect jwtVerify ⟨some h, cookie⟩ = protect jwtVerify ⟨none, cookie⟩) ∧
    (tok ≠ [] → jwtVerify tok = some id →
      protect jwtVerify ⟨none, some tok⟩ = .next id) ∧
    (tok ≠ [] → ' ' ∉ tok → jwtVerify tok = some id →
      protect jwtVerify ⟨some ("Bearer ".toList ++ tok), cookie⟩ = .next id) := by
  refine ⟨fun hB => ⟨requestToken_bearer h cookie hB, ?_⟩, fun hB => ?_, fun hne hv => ?_,
    fun hne hsp hv => ?_⟩
  · unfold protect
    rw [requestToken_bearer h cookie hB, requestToken_bearer h none hB]
  · unfold protect
    rw [requestToken_cookie (some h) cookie (fun h1 e => by cases e; exact hB)]
  · unfold protect requestToken
    simp only [hne, ne_eq, not_false_eq_true, if_true, if_false, hv]
  · have hB : startsWith ("Bearer ".toList ++ tok) "Bearer".toList = true :=
      startsWith_append "Bearer".toList (' ' :: tok)
    have hs : split ' ' ("Bearer ".toList ++ tok) = ["Bearer".toList, tok] := by
      have h1 := split_append_sep ' ' "Bearer".toList tok (by decide)
      rw [split_of_not_mem ' ' tok hsp] at h1
      exact h1
    unfold protect
    rw [requestToken_bearer _ cookie hB, hs]
    simp only [List.getElem?_cons_succ, List.getElem?_cons_zero, hne, if_false, hv]

theorem protect_token_source_witness :
    (requestToken ⟨some "Bearer good".toList, some "stale".toList⟩
        = (split ' ' "Bearer good".toList)[1]? ∧
      protect sampleVerify ⟨some "Bearer good".toList, some "stale".toList⟩
        = protect sampleVerify ⟨some "Bearer good".toList, none⟩) ∧
    protect sampleVerify ⟨some "Basic abc".toList, some "good".toList⟩
      = protect sampleVerify ⟨none, some "good".toList⟩ ∧
    protect sampleVerify ⟨none, some "good".toList⟩ = .next "1".toList ∧
    protect sampleVerify ⟨some ("Bearer ".toList ++ "good".toList), some "stale".toList⟩
      = .next "1".toList :=
  ⟨(protect_token_source sampleVerify "Bearer good".toList "good".toList "1".toList
      (some "stale".toList)).1 (by decide),
    (protect_token_source sampleVerify "Basic abc".toList "good".toList "1".toList
      (some "good".toList)).2.1 (by decide),
    (protect_token_source sampleVerify "Bearer good".toList "good".toList "1".toList
      (some "stale".toList)).2.2.1 (by decide) (by decide),
    (protect_token_source sampleVerify "Bearer good".toList "good".toList "1".toList
      (some "stale".toList)).2.2.2 (by decide) (by decide) (by decide)⟩
/-- C16: two login requests that pass validation and fail, one on the
username and one on the password, get the same response, status 401 with the
error `Invalid credentials`, and leave `ADMIN_USER` as it is; the response
is the same whatever hash is configured, so it carries nothing of the
hash. -/
theorem login_failure_is_uniform (bcryptCompare : Str → Str → Bool) (jwtSign : Str → Str)
    (admin : User) (hash u1 p1 u2 p2 v1 : Str)
    (hv1 : validateLogin u1 p1 = some v1) (hname : v1 ≠ admin.username)
    (hv2 : validateLogin u2 p2 = some admin.username)
    (hhash : admin.password = some hash) (hpw : bcryptCompare p2 hash = false) :
    login bcryptCompare jwtSign admin u1 p1
      = (.error 401 "Invalid credentials".toList, admin) ∧
    login bcryptCompare jwtSign admin u2 p2
      = (.error 401 "Invalid credentials".toList, admin) ∧
    (login bcryptCompare jwtSign admin u1 p1).1
      = (login bcryptCompare jwtSign admin u2 p2).1 ∧
    ∀ other : Str, bcryptCompare p2 other = false →
      (login bcryptCompare jwtSign { admin with password := some other } u1 p1).1
        = (login bcryptCompare jwtSign admin u1 p1).1 ∧
      (login bcryptCompare jwtSign { admin with password := some other } u2 p2).1
        = (login bcryptCompare jwtSign admin u2 p2).1 := by
  have e1 : ∀ a : User, v1 ≠ a.username → login bcryptCompare jwtSign a u1 p1
      = (.error 401 "Invalid credentials".toList, a) := by
    intro a ha
    simp only [login, hv1, loginHandler, ne_eq, ha, not_false_eq_true, if_true]
  have e2 : ∀ (a : User) (k : Str), a.username = admin.username → a.password = some k →
      bcryptCompare p2 k = false →
      login bcryptCompare jwtSign a u2 p2 = (.error 401 "Invalid credentials".toList, a) := by
    intro a k hu hk hc
    simp only [login, hv2, loginHandler, hu, ne_eq, not_true_eq_false, if_false, hk, hc,
      Bool.not_false, if_true]
  refine ⟨e1 admin hname, e2 admin hash rfl hhash hpw, ?_, fun other ho => ⟨?_, ?_⟩⟩
  · rw [e1 admin hname, e2 admin hash rfl hhash hpw]
  · rw [e1 admin hname, e1 { admin with password := some other } hname]
  · rw [e2 admin hash rfl hhash hpw, e2 { admin with password := some other } other rfl rfl ho]

theorem login_failure_is_uniform_witness :
    login sampleCompare sampleSign ADMIN_USER "mallory".toList "SANDEEP1717a".toList
      = (.error 401 "Invalid credentials".toList, ADMIN_USER) ∧
    login sampleCompare sampleSign ADMIN_USER "sunny".toList "password1".toList
      = (.error 401 "Invalid credentials".toList, ADMIN_USER) ∧
    (login sampleCompare sampleSign ADMIN_USER "mallory".toList "SANDEEP1717a".toList).1
      = (login sampleCompare sampleSign ADMIN_USER "sunny".toList "password1".toList).1 ∧
    ∀ other : Str, sampleCompare "password1".toList other = false →
      (login sampleCompare sampleSign { ADMIN_USER with password := some other }
          "mallory".toList "SANDEEP1717a".toList).1
        = (login sampleCompare sampleSign ADMIN_USER "mallory".toList
            "SANDEEP1717a".toList).1 ∧
      (login sampleCompare sampleSign { ADMIN_USER with password := some other }
          "sunny".toList "password1".toList).1
        = (login sampleCompare sampleSign ADMIN_USER "sunny".toList "password1".toList).1 :=
  login_failure_is_uniform sampleCompare sampleSign ADMIN_USER
    "$2a$12$LQv3c1yqBWVHxkd0LHAkCOYz6TtxMQJqhN8/LewdBPj3bp.Vp/PpO".toList
    "mallory".toList "SANDEEP1717a".toList "sunny".toList "password1".toList "mallory".toList
    (by decide) (by decide) (by decide) rfl (by decide)

/-- C17 (evaluation at the failing input): once a grant has been made, the
share map is a plain object, and the redeem of `constructor` or `__proto__`,
ids no grant has issued, finds the inherited property, goes past the
presence test and ends in the error handler instead of a 404; before any
grant the same ids are answered 404. -/
theorem shared_inherited_key_not_404 :
    sharedHandler sampleDirname sampleDisk (some [(sampleShareId, sampleGrant)]) 500
        "constructor".toList
      = (.nextError, some [(sampleShareId, sampleGrant)]) ∧
    sharedHandler sampleDirname sampleDisk (some [(sampleShareId, sampleGrant)]) 500
        "__proto__".toList
      = (.nextError, some [(sampleShareId, sampleGrant)]) ∧
    filesRouter sampleEnv ⟨some "Bearer good".toList, none⟩ (.shared "constructor".toList)
        sampleState
      = (.nextError, sampleState) ∧
    sharedHandler sampleDirname sampleDisk none 500 "constructor".toList
      = (.error 404 "Invalid or expired share link".toList, none) :=
  ⟨by decide, by decide, by decide, rfl⟩

/-! ## Lemmas on the title sanitizer -/

theorem mem_of_mem_trim (s : Str) (c : Char) (h : c ∈ trim s) : c ∈ s := by
  have h1 : trim s <+: s.dropWhile isWhiteSpace := List.rdropWhile_prefix isWhiteSpace _
  exact (List.dropWhile_sublist isWhiteSpace).subset (h1.sublist.subset h)

theorem dropWhile_trim (s : Str) : (trim s).dropWhile isWhiteSpace = trim s := by
  have h1 : trim s <+: s.dropWhile isWhiteSpace := List.rdropWhile_prefix isWhiteSpace _
  obtain ⟨r, hr⟩ := h1
  cases ht : trim s with
  | nil => rfl
  | cons a t =>
    have hh := List.head?_dropWhile_not isWhiteSpace s
    rw [← hr, ht] at hh
    simp only [List.cons_append, List.head?_cons] at hh
    simp [List.dropWhile_cons, hh]

theorem trim_idempotent (s : Str) : trim (trim s) = trim s := by
  show ((trim s).dropWhile isWhiteSpace).rdropWhile isWhiteSpace = trim s
  rw [dropWhile_trim]
  exact List.rdropWhile_idempotent isWhiteSpace _

theorem sanitizeTitle_all (title : Str) : ∀ c ∈ sanitizeTitle title, isIdChar c = true := by
  intro c hc
  have h1 := mem_of_mem_trim _ c hc
  exact (List.mem_filter.1 h1).2

theorem sanitizeTitle_idempotent (title : Str) :
    sanitizeTitle (sanitizeTitle title) = sanitizeTitle title := by
  have hf : (sanitizeTitle title).filter isIdChar = sanitizeTitle title :=
    List.filter_eq_self.2 (sanitizeTitle_all title)
  unfold sanitizeTitle at hf ⊢
  rw [hf]
  exact trim_idempotent _

theorem idRegexTest_sanitizeTitle (title : Str) (h : sanitizeTitle title ≠ []) :
    idRegexTest (sanitizeTitle title) = true := by
  unfold idRegexTest
  rw [Bool.and_eq_true]
  exact ⟨decide_eq_true h, List.all_eq_true.2 (sanitizeTitle_all title)⟩

/-! ## Lemmas on `path.join` below a normalised directory -/

theorem mem_split_not_sep (sep : Char) (p : Str) : ∀ s ∈ split sep p, sep ∉ s := by
  induction p with
  | nil => intro s hs; simp [split] at hs; subst hs; simp
  | cons c cs ih =>
    intro s hs
    simp only [split] at hs
    split_ifs at hs with hc
    · rcases List.mem_cons.1 hs with rfl | h
      · simp
      · exact ih s h
    · cases hsp : split sep cs with
      | nil => exact absurd hsp (split_ne_nil sep cs)
      | cons a b =>
        rw [hsp] at hs ih
        rcases List.mem_cons.1 hs with rfl | h
        · intro hm
          rcases List.mem_cons.1 hm with e | hm1
          · exact hc e.symm
          · exact ih a (by simp) hm1
        · exact ih s (List.mem_cons_of_mem _ h)

theorem split_append_sep_split (sep : Char) (a b : Str) :
    split sep (a ++ sep :: b) = split sep a ++ split sep b := by
  induction a with
  | nil => simp [split]
  | cons c cs ih =>
    by_cases hc : c = sep
    · simp [split, hc, ih]
    · cases hsp : split sep cs with
      | nil => exact absurd hsp (split_ne_nil sep cs)
      | cons x xs =>
        show split sep (c :: (cs ++ sep :: b)) = split sep (c :: cs) ++ split sep b
        simp only [split, hc, if_false, ih, hsp]
        rfl

theorem joinWith_append_singleton (sep : Char) (l : List Str) (f : Str) (hl : l ≠ []) :
    joinWith sep (l ++ [f]) = joinWith sep l ++ sep :: f := by
  induction l with
  | nil => exact absurd rfl hl
  | cons a l ih =>
    cases l with
    | nil => rfl
    | cons b l =>
      rw [List.cons_append, List.cons_append, joinWith_cons_cons, ← List.cons_append,
        ih (by simp), joinWith_cons_cons]
      simp

theorem split_joinWith (sep : Char) (l : List Str) (hl : l ≠ []) (h : ∀ s ∈ l, sep ∉ s) :
    split sep (joinWith sep l) = l := by
  induction l with
  | nil => exact absurd rfl hl
  | cons a l ih =>
    cases l with
    | nil => exact split_of_not_mem sep a (h a (by simp))
    | cons b l =>
      rw [joinWith_cons_cons, split_append_sep sep a _ (h a (by simp)),
        ih (by simp) (fun s hs => h s (List.mem_cons_of_mem _ hs))]

theorem joinWith_ne_nil (sep : Char) (l : List Str) (hl : l ≠ []) (h : ∀ s ∈ l, s ≠ []) :
    joinWith sep l ≠ [] := by
  cases l with
  | nil => exact absurd rfl hl
  | cons a l =>
    cases l with
    | nil => exact h a (by simp)
    | cons b l =>
      rw [joinWith_cons_cons]
      intro e
      exact h a (by simp) (List.append_eq_nil.1 e).1

theorem pushSegment_plain (allowAboveRoot : Bool) (acc : List Str) (seg : Str)
    (h : IsPlainSegment seg) : path.pushSegment allowAboveRoot acc seg = seg :: acc := by
  obtain ⟨h1, h2, h3, _⟩ := h
  simp [path.pushSegment, h1, h2, h3]

theorem foldl_pushSegment_plain (allowAboveRoot : Bool) (l : List Str) :
    ∀ acc : List Str, (∀ s ∈ l, IsPlainSegment s) →
      l.foldl (path.pushSegment allowAboveRoot) acc = l.reverse ++ acc := by
  induction l with
  | nil => intro acc _; rfl
  | cons a l ih =>
    intro acc h
    rw [List.foldl_cons, pushSegment_plain _ _ _ (h a (by simp)),
      ih _ (fun s hs => h s (List.mem_cons_of_mem _ hs))]
    simp

theorem pushSegment_false_plain (acc : List Str) (seg : Str)
    (hacc : ∀ s ∈ acc, IsPlainSegment s) (hseg : '/' ∉ seg) :
    ∀ s ∈ path.pushSegment false acc seg, IsPlainSegment s := by
  by_cases h1 : seg = [] ∨ seg = ['.']
  · simp only [path.pushSegment, h1, if_true]
    exact hacc
  · by_cases h2 : seg = ['.', '.']
    · cases acc with
      | nil =>
        intro s hs
        simp [path.pushSegment, h2] at hs
      | cons last rest =>
        have hl : last ≠ ['.', '.'] := (hacc last (by simp)).2.2.1
        intro s hs
        simp only [path.pushSegment, h1, h2, hl, if_false, if_true] at hs
        exact hacc s (List.mem_cons_of_mem _ hs)
    · intro s hs
      simp only [path.pushSegment, h1, h2, if_false] at hs
      rcases List.mem_cons.1 hs with rfl | h
      · exact ⟨fun e => h1 (Or.inl e), fun e => h1 (Or.inr e), h2, hseg⟩
      · exact hacc s h

theorem foldl_pushSegment_false_plain (l : List Str) :
    ∀ acc : List Str, (∀ s ∈ acc, IsPlainSegment s) → (∀ s ∈ l, '/' ∉ s) →
      ∀ s ∈ l.foldl (path.pushSegment false) acc, IsPlainSegment s := by
  induction l with
  | nil => intro acc hacc _; exact hacc
  | cons a l ih =>
    intro acc hacc hl
    rw [List.foldl_cons]
    exact ih _ (pushSegment_false_plain acc a hacc (hl a (by simp)))
      (fun s hs => hl s (List.mem_cons_of_mem _ hs))

theorem getLast?_append_sep_cons (a f : Str) (hf : f ≠ []) (hs : '/' ∉ f) :
    (a ++ '/' :: f).getLast? ≠ some '/' := by
  intro e
  have h1 : (a ++ '/' :: f).getLast? = f.getLast? := by
    cases hl : f.getLast? with
    | none => exact absurd (List.getLast?_eq_none_iff.1 hl) hf
    | some x =>
      rw [show a ++ '/' :: f = (a ++ ['/']) ++ f from by simp, List.getLast?_append, hl]
      rfl
  rw [h1] at e
  exact hs (List.mem_of_getLast?_eq_some e)

/-- Joining a plain name to a clean directory appends it after a separator. -/
theorem join_clean_child (dir f : Str) (hdir : IsCleanPath dir) (hf : IsPlainSegment f) :
    path.join [dir, f] = dir ++ '/' :: f := by
  obtain ⟨l, hl, hplain, rfl⟩ := hdir
  have hne : ∀ s ∈ l ++ [f], IsPlainSegment s := by
    intro s hs
    rcases List.mem_append.1 hs with h | h
    · exact hplain s h
    · rw [List.mem_singleton.1 h]; exact hf
  have hjoined : joinWith '/' ['/' :: joinWith '/' l, f] = '/' :: joinWith '/' (l ++ [f]) := by
    rw [joinWith_append_singleton '/' l f hl]
    rfl
  have hsplit : split '/' ('/' :: joinWith '/' (l ++ [f])) = [] :: (l ++ [f]) := by
    rw [show split '/' ('/' :: joinWith '/' (l ++ [f]))
        = [] :: split '/' (joinWith '/' (l ++ [f])) from by simp [split],
      split_joinWith '/' (l ++ [f]) (by simp) (fun s hs => (hne s hs).2.2.2)]
  have hq : path.normalizeString ('/' :: joinWith '/' (l ++ [f])) false
      = joinWith '/' (l ++ [f]) := by
    unfold path.normalizeString
    rw [hsplit, List.foldl_cons,
      show path.pushSegment false [] [] = [] from by simp [path.pushSegment],
      foldl_pushSegment_plain false (l ++ [f]) [] hne]
    simp
  have hqne : joinWith '/' (l ++ [f]) ≠ [] :=
    joinWith_ne_nil '/' (l ++ [f]) (by simp) (fun s hs => (hne s hs).1)
  have htrail : ('/' :: joinWith '/' (l ++ [f])).getLast? ≠ some '/' := by
    rw [joinWith_append_singleton '/' l f hl, ← List.cons_append]
    exact getLast?_append_sep_cons _ f hf.1 hf.2.2.2
  have hfilter : [('/' :: joinWith '/' l), f].filter (fun a => decide (a ≠ []))
      = ['/' :: joinWith '/' l, f] := by
    simp [hf.1]
  unfold path.join
  rw [hfilter]
  simp only
  rw [hjoined]
  unfold path.normalize
  simp only [hq, hqne, htrail, List.head?_cons, if_false, if_true, decide_True, decide_False,
    Bool.not_true, reduceCtorEq]
  rw [joinWith_append_singleton '/' l f hl]
  simp
/-- A directory reached as `path.join(__dirname, "../name")` from an absolute
`__dirname` is a clean path. -/
theorem join_sibling_clean (dirname name : Str) (habs : dirname.head? = some '/')
    (hname : IsPlainSegment name) :
    IsCleanPath (path.join [dirname, '.' :: '.' :: '/' :: name]) := by
  have hd : dirname ≠ [] := by
    rintro rfl
    simp at habs
  have hfilter : [dirname, '.' :: '.' :: '/' :: name].filter (fun a => decide (a ≠ []))
      = [dirname, '.' :: '.' :: '/' :: name] := by
    simp [hd]
  have hjoined : joinWith '/' [dirname, '.' :: '.' :: '/' :: name]
      = (dirname ++ '/' :: ['.', '.']) ++ '/' :: name := by
    simp [joinWith]
  have hsplit : split '/' ((dirname ++ '/' :: ['.', '.']) ++ '/' :: name)
      = split '/' dirname ++ [['.', '.']] ++ [name] := by
    rw [split_append_sep_split, split_append_sep_split,
      split_of_not_mem '/' ['.', '.'] (by decide), split_of_not_mem '/' name hname.2.2.2]
  have hA : ∀ s ∈ (split '/' dirname).foldl (path.pushSegment false) [], IsPlainSegment s :=
    foldl_pushSegment_false_plain _ [] (by simp) (mem_split_not_sep '/' dirname)
  have hB : ∀ s ∈ path.pushSegment false
      ((split '/' dirname).foldl (path.pushSegment false) []) ['.', '.'], IsPlainSegment s :=
    pushSegment_false_plain _ _ hA (by decide)
  have hfold : (split '/' ((dirname ++ '/' :: ['.', '.']) ++ '/' :: name)).foldl
      (path.pushSegment false) []
      = name :: path.pushSegment false
          ((split '/' dirname).foldl (path.pushSegment false) []) ['.', '.'] := by
    rw [hsplit, List.foldl_append, List.foldl_append]
    simp only [List.foldl_cons, List.foldl_nil]
    exact pushSegment_plain false _ name hname
  have hplain : ∀ s ∈ (path.pushSegment false
      ((split '/' dirname).foldl (path.pushSegment false) []) ['.', '.']).reverse ++ [name],
      IsPlainSegment s := by
    intro s hs
    rcases List.mem_append.1 hs with h | h
    · exact hB s (List.mem_reverse.1 h)
    · rw [List.mem_singleton.1 h]; exact hname
  have hq : path.normalizeString ((dirname ++ '/' :: ['.', '.']) ++ '/' :: name) false
      = joinWith '/' ((path.pushSegment false
          ((split '/' dirname).foldl (path.pushSegment false) []) ['.', '.']).reverse
          ++ [name]) := by
    unfold path.normalizeString
    rw [hfold, List.reverse_cons]
  have hqne := joinWith_ne_nil '/' _ (by simp) (fun s hs => (hplain s hs).1)
  have hhead : ((dirname ++ '/' :: ['.', '.']) ++ '/' :: name).head? = some '/' := by
    cases dirname with
    | nil => exact absurd rfl hd
    | cons c cs => simpa using habs
  have hne : (dirname ++ '/' :: ['.', '.']) ++ '/' :: name ≠ [] := by simp
  have htrail := getLast?_append_sep_cons (dirname ++ '/' :: ['.', '.']) name hname.1
    hname.2.2.2
  refine ⟨_, by simp, hplain, ?_⟩
  unfold path.join
  rw [hfilter]
  simp only
  rw [hjoined]
  unfold path.normalize
  simp only [hne, hq, hqne, htrail, hhead, if_false, if_true, decide_True, decide_False,
    Bool.not_true]

theorem notesDir_clean (dirname : Str) (habs : dirname.head? = some '/') :
    IsCleanPath (notesDir dirname) :=
  join_sibling_clean dirname "notes".toList habs ⟨by decide, by decide, by decide, by decide⟩

theorem uploadsDir_clean (dirname : Str) (habs : dirname.head? = some '/') :
    IsCleanPath (uploadsDir dirname) :=
  join_sibling_clean dirname "uploads".toList habs ⟨by decide, by decide, by decide, by decide⟩

theorem IsCleanPath.ne_nil {p : Str} (h : IsCleanPath p) : p ≠ [] := by
  obtain ⟨l, _, _, rfl⟩ := h
  simp

theorem dropWhile_not_sep_append (f rest : Str) (hf : '/' ∉ f) :
    (f ++ '/' :: rest).dropWhile (fun c => c != '/') = '/' :: rest := by
  induction f with
  | nil => simp
  | cons c f ih =>
    have hc : c ≠ '/' := fun e => hf (by simp [e])
    have hf1 : '/' ∉ f := fun e => hf (List.mem_cons_of_mem _ e)
    simp [List.dropWhile_cons, hc, ih hf1]

theorem parentPath_child (dir f : Str) (hd : dir ≠ []) (hf : '/' ∉ f) :
    notefs.parentPath (dir ++ '/' :: f) = dir := by
  unfold notefs.parentPath
  have h1 : (dir ++ '/' :: f).reverse = f.reverse ++ '/' :: dir.reverse := by simp
  rw [h1, dropWhile_not_sep_append f.reverse dir.reverse (by simpa using hf)]
  simp [hd]

theorem takeWhile_not_sep_append (f rest : Str) (hf : '/' ∉ f) :
    (f ++ '/' :: rest).takeWhile (fun c => c != '/') = f := by
  induction f with
  | nil => simp
  | cons c f ih =>
    have hc : c ≠ '/' := fun e => hf (by simp [e])
    have hf1 : '/' ∉ f := fun e => hf (List.mem_cons_of_mem _ e)
    simp [List.takeWhile_cons, hc, ih hf1]

theorem baseName_child (dir f : Str) (hf : '/' ∉ f) :
    notefs.baseName (dir ++ '/' :: f) = f := by
  unfold notefs.baseName
  have h1 : (dir ++ '/' :: f).reverse = f.reverse ++ '/' :: dir.reverse := by simp
  rw [h1, takeWhile_not_sep_append f.reverse dir.reverse (by simpa using hf)]
  simp

theorem startsWith_iff_exists_append (s p : Str) : startsWith s p = true ↔ ∃ t, s = p ++ t := by
  induction p generalizing s with
  | nil => cases s <;> simp [startsWith]
  | cons d p ih =>
    cases s with
    | nil => simp [startsWith]
    | cons c s =>
      simp only [startsWith, Bool.and_eq_true, beq_iff_eq, ih, List.cons_append,
        List.cons.injEq]
      constructor
      · rintro ⟨rfl, t, rfl⟩
        exact ⟨t, rfl, rfl⟩
      · rintro ⟨t, rfl, rfl⟩
        exact ⟨rfl, t, rfl⟩

theorem childName_eq_some (dir p f : Str) :
    fs.childName dir p = some f ↔ p = dir ++ '/' :: f ∧ f ≠ [] ∧ '/' ∉ f := by
  unfold fs.childName
  constructor
  · intro h
    split_ifs at h with h1
    · simp only at h
      split_ifs at h with h2
      obtain ⟨t, rfl⟩ := (startsWith_iff_exists_append _ _).1 h1
      have hdrop : (dir ++ ['/'] ++ t).drop (dir.length + 1) = t := by
        rw [List.drop_append_eq_append_drop]
        simp
      rw [hdrop] at h h2
      cases h
      exact ⟨by simp, h2.1, h2.2⟩
  · rintro ⟨rfl, h1, h2⟩
    have hs : startsWith (dir ++ '/' :: f) (dir ++ ['/']) = true :=
      (startsWith_iff_exists_append _ _).2 ⟨f, by simp⟩
    have hdrop : (dir ++ '/' :: f).drop (dir.length + 1) = f := by
      rw [show dir ++ '/' :: f = (dir ++ ['/']) ++ f from by simp,
        List.drop_append_eq_append_drop]
      simp
    simp only [hs, if_true, hdrop]
    rw [if_pos ⟨h1, h2⟩]

/-! ## Lemmas on deleting -/

theorem length_filter_ne_of_nodup {α : Type} (key : α → Str) (p : Str) (l : List α)
    (hnd : (l.map key).Nodup) (hex : ∃ n ∈ l, key n = p) :
    (l.filter (fun n => decide (key n ≠ p))).length + 1 = l.length := by
  induction l with
  | nil => obtain ⟨n, hn, _⟩ := hex; simp at hn
  | cons a l ih =>
    rw [List.map_cons, List.nodup_cons] at hnd
    by_cases ha : key a = p
    · have hall : ∀ n ∈ l, key n ≠ p := by
        intro n hn e
        exact hnd.1 (by rw [ha, ← e]; exact List.mem_map_of_mem key hn)
      have hf : l.filter (fun n => decide (key n ≠ p)) = l :=
        List.filter_eq_self.2 (fun n hn => by simpa using hall n hn)
      rw [List.filter_cons, if_neg (by simp [ha]), hf]
      rfl
    · obtain ⟨n, hn, hnp⟩ := hex
      have hn1 : n ∈ l := by
        rcases List.mem_cons.1 hn with rfl | h
        · exact absurd hnp ha
        · exact h
      have h1 := ih hnd.2 ⟨n, hn1, hnp⟩
      rw [List.filter_cons, if_pos (by simp [ha]), List.length_cons, List.length_cons, h1]

theorem startsWith_of_insideRoot (root p : Str) (h : insideRoot root p = true) :
    startsWith p root = true := by
  unfold insideRoot at h
  rw [Bool.or_eq_true] at h
  rcases h with h | h
  · rw [beq_iff_eq] at h
    rw [h]
    exact (startsWith_iff_exists_append _ _).2 ⟨[], by simp⟩
  · split_ifs at h with hr
    · exact h
    · obtain ⟨t, rfl⟩ := (startsWith_iff_exists_append _ _).1 h
      exact (startsWith_iff_exists_append _ _).2 ⟨'/' :: t, by simp⟩

theorem fs_unlinkSync_some (disk disk1 : Disk) (p : Str) (h : fs.unlinkSync disk p = some disk1) :
    (∃ n ∈ disk, n.path = p ∧ n.isDirectory = false) ∧
    disk1 = disk.filter (fun n => decide (n.path ≠ p)) := by
  unfold fs.unlinkSync at h
  split_ifs at h with hany
  cases h
  refine ⟨?_, rfl⟩
  obtain ⟨n, hn, hp⟩ := List.any_eq_true.1 hany
  simp only [Bool.and_eq_true, decide_eq_true_eq, Bool.not_eq_true'] at hp
  exact ⟨n, hn, hp.1, hp.2⟩

theorem fs_existsSync_filter (disk : Disk) (p : Str) (hp : p.getLast? ≠ some '/') :
    fs.existsSync (disk.filter (fun n => decide (n.path ≠ p))) p = false := by
  unfold fs.existsSync
  rw [if_neg (fun h => hp h.2)]
  rw [Bool.eq_false_iff]
  intro h
  obtain ⟨n, hn, he⟩ := List.any_eq_true.1 h
  have h2 := (List.mem_filter.1 hn).2
  simp only [decide_eq_true_eq] at he h2
  exact h2 he

theorem notefs_unlinkSync_some (disk disk1 : NoteDisk) (p : Str)
    (h : notefs.unlinkSync disk p = some disk1) :
    (∃ n ∈ disk, n.path = p ∧ n.isDirectory = false) ∧
    disk1 = disk.filter (fun n => decide (n.path ≠ p)) := by
  unfold notefs.unlinkSync at h
  split_ifs at h with hany
  cases h
  refine ⟨?_, rfl⟩
  obtain ⟨n, hn, hp⟩ := List.any_eq_true.1 hany
  simp only [Bool.and_eq_true, decide_eq_true_eq, Bool.not_eq_true'] at hp
  exact ⟨n, hn, hp.1, hp.2⟩

theorem notefs_existsSync_filter (disk : NoteDisk) (p : Str) (hp : p.getLast? ≠ some '/') :
    notefs.existsSync (disk.filter (fun n => decide (n.path ≠ p))) p = false := by
  unfold notefs.existsSync
  rw [if_neg (fun h => hp h.2)]
  rw [Bool.eq_false_iff]
  intro h
  obtain ⟨n, hn, he⟩ := List.any_eq_true.1 h
  have h2 := (List.mem_filter.1 hn).2
  simp only [decide_eq_true_eq] at he h2
  exact h2 he

/-- What a file delete that passes the guard does: 404 without change when
nothing is at the path, otherwise the outcome of `unlinkSync`. -/
theorem deleteHandler_inside (dirname cwd : Str) (disk : Disk) (filename : Str)
    (hin : insideRoot (path.resolve cwd (uploadsDir dirname))
      (path.resolve cwd (path.join [dirname, "../uploads".toList, filename])) = true) :
    deleteHandler dirname cwd disk filename
      = if fs.existsSync disk (path.join [dirname, "../uploads".toList, filename]) = false then
          (.error 404 "File not found".toList, disk)
        else
          match fs.unlinkSync disk (path.join [dirname, "../uploads".toList, filename]) with
          | some disk1 => (.deleted, disk1)
          | none => (.nextError, disk) := by
  have hs := startsWith_of_insideRoot _ _ hin
  unfold uploadsDir at hs
  unfold deleteHandler
  simp only [hs, Bool.not_true, Bool.false_eq_true, if_false]
  cases fs.existsSync disk (path.join [dirname, "../uploads".toList, filename]) <;> rfl

/-- What a note delete with a valid id does. -/
theorem deleteNoteHandler_valid (dirname : Str) (disk : NoteDisk) (noteId : Str)
    (hid : idRegexTest noteId = true) :
    deleteNoteHandler dirname disk noteId
      = if notefs.existsSync disk (noteFilePath dirname noteId) = false then
          (.error 404 "Note not found".toList, disk)
        else
          match notefs.unlinkSync disk (noteFilePath dirname noteId) with
          | some disk1 => (.deleted, disk1)
          | none => (.nextError, disk) := by
  unfold deleteNoteHandler
  simp only [hid, Bool.not_true, Bool.false_eq_true, if_false]
  cases notefs.existsSync disk (noteFilePath dirname noteId) <;> rfl

/-! ## Lemmas on the notes listing -/

theorem mapOrThrow_forall₂ {α β : Type} (f : α → Option β) :
    ∀ (xs : List α) (ys : List β), mapOrThrow f xs = some ys →
      List.Forall₂ (fun x y => f x = some y) xs ys := by
  intro xs
  induction xs with
  | nil =>
    intro ys h
    simp [mapOrThrow] at h
    subst h
    exact List.Forall₂.nil
  | cons x xs ih =>
    intro ys h
    simp only [mapOrThrow] at h
    cases hx : f x with
    | none => simp [hx] at h
    | some y =>
      cases hr : mapOrThrow f xs with
      | none => simp [hx, hr] at h
      | some ys0 =>
        simp [hx, hr] at h
        subst h
        exact List.Forall₂.cons hx (ih ys0 hr)

theorem mapOrThrow_isSome {α β : Type} (f : α → Option β) :
    ∀ xs : List α, (∀ x ∈ xs, ∃ y, f x = some y) → ∃ ys, mapOrThrow f xs = some ys := by
  intro xs
  induction xs with
  | nil => intro _; exact ⟨[], rfl⟩
  | cons x xs ih =>
    intro h
    obtain ⟨y, hy⟩ := h x (by simp)
    obtain ⟨ys, hys⟩ := ih (fun z hz => h z (List.mem_cons_of_mem _ hz))
    exact ⟨y :: ys, by simp [mapOrThrow, hy, hys]⟩

theorem endsWith_iff_suffix (s suffix : Str) :
    endsWith s suffix = true ↔ ∃ t, s = t ++ suffix := by
  unfold endsWith
  rw [startsWith_iff_exists_append]
  constructor
  · rintro ⟨t, h⟩
    refine ⟨t.reverse, ?_⟩
    have := congrArg List.reverse h
    simpa using this
  · rintro ⟨t, rfl⟩
    exact ⟨t.reverse, by simp⟩

/-- A name of the notes directory that ends in `.txt` is a plain segment. -/
theorem isPlainSegment_of_txt_child (f : Str) (hne : f ≠ []) (hsep : '/' ∉ f)
    (htxt : endsWith f ".txt".toList = true) : IsPlainSegment f := by
  obtain ⟨t, rfl⟩ := (endsWith_iff_suffix _ _).1 htxt
  refine ⟨hne, ?_, ?_, hsep⟩
  · intro e
    have := congrArg List.length e
    simp at this
  · intro e
    have := congrArg List.length e
    simp at this

/-- The listing callback succeeds on every `.txt` name of the notes
directory when those names are regular files. -/
theorem listedNote_isSome (dirname : Str) (disk : NoteDisk) (habs : dirname.head? = some '/')
    (hreg : ∀ n ∈ disk, ∀ f, fs.childName (notesDir dirname) n.path = some f →
      endsWith f ".txt".toList = true → n.isDirectory = false) :
    ∀ f ∈ (notefs.readdirSync disk (notesDir dirname)).filter
        (fun file => endsWith file ".txt".toList),
      ∃ e, listedNote dirname disk f = some e := by
  intro f hf
  obtain ⟨hmem, htxt⟩ := List.mem_filter.1 hf
  unfold notefs.readdirSync at hmem
  obtain ⟨n, hn, hchild⟩ := List.mem_filterMap.1 hmem
  obtain ⟨hpath, hne, hsep⟩ := (childName_eq_some _ _ _).1 hchild
  have hplain := isPlainSegment_of_txt_child f hne hsep htxt
  have hjoin := join_clean_child (notesDir dirname) f (notesDir_clean dirname habs) hplain
  have hfind : ∃ m, disk.find? (fun k => decide (k.path = notesDir dirname ++ '/' :: f))
      = some m := by
    cases hfd : disk.find? (fun k => decide (k.path = notesDir dirname ++ '/' :: f)) with
    | none =>
      have := List.find?_eq_none.1 hfd n hn
      simp [hpath] at this
    | some m => exact ⟨m, rfl⟩
  obtain ⟨m, hm⟩ := hfind
  have hmmem : m ∈ disk := List.mem_of_find?_eq_some hm
  have hmpath : m.path = notesDir dirname ++ '/' :: f := by
    have := List.find?_some hm
    simpa using this
  have hmreg : m.isDirectory = false :=
    hreg m hmmem f ((childName_eq_some _ _ _).2 ⟨hmpath, hne, hsep⟩) htxt
  unfold listedNote
  simp only [hjoin, notefs.statSync, notefs.readFileSync, hm, hmreg, Bool.false_eq_true,
    if_false]
  exact ⟨_, rfl⟩

/-! ## Lemmas on writing and reading a note -/

theorem find_map_update (p c : Str) (now : Nat) (disk : NoteDisk)
    (h : ∃ n ∈ disk, n.path = p) :
    ∃ n0 ∈ disk, n0.path = p ∧
      (disk.map (fun n => if n.path = p then { n with content := c, mtime := now } else n)).find?
          (fun n => decide (n.path = p))
        = some { n0 with content := c, mtime := now } := by
  induction disk with
  | nil => obtain ⟨n, hn, _⟩ := h; simp at hn
  | cons a l ih =>
    by_cases ha : a.path = p
    · refine ⟨a, by simp, ha, ?_⟩
      simp [List.map_cons, ha]
    · obtain ⟨n, hn, hnp⟩ := h
      have hn1 : n ∈ l := by
        rcases List.mem_cons.1 hn with rfl | h1
        · exact absurd hnp ha
        · exact h1
      obtain ⟨n0, hn0, hp0, hfind⟩ := ih ⟨n, hn1, hnp⟩
      refine ⟨n0, List.mem_cons_of_mem _ hn0, hp0, ?_⟩
      rw [List.map_cons, if_neg ha, List.find?_cons_of_neg _ (by simp [ha])]
      exact hfind

/-- What a successful `writeFileSync` leaves: the file is found at its path
with the content and the time written, no directory sits at that path, and
an overwrite adds no node. -/
theorem writeFileSync_spec (disk : NoteDisk) (p c : Str) (now : Nat)
    (hname : utf8Length (notefs.baseName p) ≤ notefs.NAME_MAX)
    (hlen : utf8Length p < notefs.PATH_MAX)
    (hlast : p.getLast? ≠ some '/')
    (hnodir : ∀ n ∈ disk, n.path = p → n.isDirectory = false)
    (hok : (∃ n ∈ disk, n.path = p) ∨
      disk.any (fun n => decide (n.path = notefs.parentPath p) && n.isDirectory) = true) :
    ∃ disk1 node, notefs.writeFileSync disk p c now = some disk1 ∧
      disk1.find? (fun n => decide (n.path = p)) = some node ∧
      node.content = c ∧ node.mtime = now ∧ node.isDirectory = false ∧
      (∀ n ∈ disk1, n.path = p → n.isDirectory = false) ∧
      ((∃ n ∈ disk, n.path = p) → disk1.length = disk.length) := by
  have hlong : ¬ (notefs.NAME_MAX < utf8Length (notefs.baseName p) ∨
      notefs.PATH_MAX ≤ utf8Length p) := by
    rintro (h | h)
    · exact absurd hname (Nat.not_le.2 h)
    · exact absurd hlen (Nat.not_lt.2 h)
  have hnd : ¬ (p.getLast? = some '/' ∨
      disk.any (fun n => decide (n.path = p) && n.isDirectory) = true) := by
    rintro (h | h)
    · exact hlast h
    · obtain ⟨n, hn, hh⟩ := List.any_eq_true.1 h
      simp only [Bool.and_eq_true, decide_eq_true_eq] at hh
      rw [hnodir n hn hh.1] at hh
      exact absurd hh.2 (by decide)
  by_cases hex : ∃ n ∈ disk, n.path = p
  · have hany : disk.any (fun n => decide (n.path = p)) = true := by
      obtain ⟨n, hn, hp⟩ := hex
      exact List.any_eq_true.2 ⟨n, hn, by simp [hp]⟩
    obtain ⟨n0, hn0, hp0, hfind⟩ := find_map_update p c now disk hex
    refine ⟨_, _, ?_, hfind, rfl, rfl, hnodir n0 hn0 hp0, ?_, fun _ => by simp⟩
    · unfold notefs.writeFileSync
      rw [if_neg hlong, if_neg hnd, if_pos hany]
    · intro n hn hp
      obtain ⟨m, hm, rfl⟩ := List.mem_map.1 hn
      by_cases hmp : m.path = p
      · simp only [hmp, if_true]
        exact hnodir m hm hmp
      · simp only [hmp, if_false] at hp
  · have hany : ¬ disk.any (fun n => decide (n.path = p)) = true := by
      intro h
      obtain ⟨n, hn, hh⟩ := List.any_eq_true.1 h
      exact hex ⟨n, hn, by simpa using hh⟩
    have hpar : disk.any (fun n => decide (n.path = notefs.parentPath p) && n.isDirectory)
        = true := by
      rcases hok with h | h
      · exact absurd h hex
      · exact h
    have hnone : disk.find? (fun n => decide (n.path = p)) = none := by
      rw [List.find?_eq_none]
      intro n hn hh
      exact hex ⟨n, hn, by simpa using hh⟩
    refine ⟨disk ++ [{ path := p, isDirectory := false, content := c, mtime := now }],
      { path := p, isDirectory := false, content := c, mtime := now }, ?_, ?_, rfl, rfl, rfl,
      ?_, fun h => absurd h hex⟩
    · unfold notefs.writeFileSync
      rw [if_neg hlong, if_neg hnd, if_neg hany, if_pos hpar]
    · rw [List.find?_append, hnone]
      simp
    · intro n hn hp
      rcases List.mem_append.1 hn with h | h
      · exact absurd ⟨n, h, hp⟩ hex
      · rw [List.mem_singleton.1 h]

/-- The path of a note with a valid id: the file `<id>.txt` directly in the
notes directory. -/
theorem noteFilePath_eq (dirname noteId : Str) (habs : dirname.head? = some '/')
    (hid : idRegexTest noteId = true) :
    noteFilePath dirname noteId = notesDir dirname ++ '/' :: (noteId ++ ".txt".toList) ∧
    '/' ∉ noteId ++ ".txt".toList ∧
    (noteFilePath dirname noteId).getLast? ≠ some '/' := by
  unfold idRegexTest at hid
  rw [Bool.and_eq_true, decide_eq_true_eq, List.all_eq_true] at hid
  have hsep : '/' ∉ noteId ++ ".txt".toList := by
    intro hm
    rcases List.mem_append.1 hm with h | h
    · exact absurd (hid.2 _ h) (by decide)
    · exact absurd h (by decide)
  have hplain : IsPlainSegment (noteId ++ ".txt".toList) := by
    refine ⟨by simp [hid.1], ?_, ?_, hsep⟩
    · intro e
      have := congrArg List.length e
      simp at this
    · intro e
      have := congrArg List.length e
      simp at this
  have hj := join_clean_child (notesDir dirname) _ (notesDir_clean dirname habs) hplain
  unfold noteFilePath
  refine ⟨hj, hsep, ?_⟩
  rw [hj]
  exact getLast?_append_sep_cons _ _ hplain.1 hsep

/-- Reading back a note that is found at its path. -/
theorem getNoteHandler_found (dirname : Str) (disk : NoteDisk) (noteId : Str)
    (node : NoteNode) (hid : idRegexTest noteId = true)
    (hlast : (noteFilePath dirname noteId).getLast? ≠ some '/')
    (hfind : disk.find? (fun n => decide (n.path = noteFilePath dirname noteId)) = some node)
    (hreg : node.isDirectory = false) :
    getNoteHandler dirname disk noteId
      = .note ⟨noteId, noteId, node.content, node.mtime, utf8Length node.content⟩ := by
  have hex : notefs.existsSync disk (noteFilePath dirname noteId) = true := by
    unfold notefs.existsSync
    rw [if_neg (fun h => hlast h.2)]
    have hp := List.find?_some hfind
    exact List.any_eq_true.2 ⟨node, List.mem_of_find?_eq_some hfind, hp⟩
  unfold getNoteHandler
  simp only [hid, hex, Bool.not_true, Bool.false_eq_true, if_false, notefs.readFileSync,
    notefs.statSync, hfind, hreg]

/-- Saving a note when the write succeeds as `writeFileSync_spec` describes. -/
theorem saveNoteHandler_saved (dirname : Str) (disk : NoteDisk) (now : Nat) (t content : Str)
    (habs : dirname.head? = some '/')
    (hid : sanitizeTitle t ≠ [])
    (hname : utf8Length (sanitizeTitle t ++ ".txt".toList) ≤ notefs.NAME_MAX)
    (hlen : utf8Length (noteFilePath dirname (sanitizeTitle t)) < notefs.PATH_MAX)
    (hnodir : ∀ n ∈ disk, n.path = noteFilePath dirname (sanitizeTitle t) →
      n.isDirectory = false)
    (hok : (∃ n ∈ disk, n.path = noteFilePath dirname (sanitizeTitle t)) ∨
      disk.any (fun n => decide (n.path = notesDir dirname) && n.isDirectory) = true) :
    ∃ disk1,
      saveNoteHandler dirname disk now t content
        = (.saved ⟨sanitizeTitle t, sanitizeTitle t, content, now, utf8Length content⟩,
            disk1) ∧
      getNoteHandler dirname disk1 (sanitizeTitle t)
        = .note ⟨sanitizeTitle t, sanitizeTitle t, content, now, utf8Length content⟩ ∧
      (∃ n ∈ disk1, n.path = noteFilePath dirname (sanitizeTitle t)) ∧
      (∀ n ∈ disk1, n.path = noteFilePath dirname (sanitizeTitle t) →
        n.isDirectory = false) ∧
      ((∃ n ∈ disk, n.path = noteFilePath dirname (sanitizeTitle t)) →
        disk1.length = disk.length) := by
  have hv := idRegexTest_sanitizeTitle t hid
  obtain ⟨hpath, hsep, hlast⟩ := noteFilePath_eq dirname (sanitizeTitle t) habs hv
  have hparent : notefs.parentPath (noteFilePath dirname (sanitizeTitle t))
      = notesDir dirname := by
    rw [hpath]
    exact parentPath_child _ _ (notesDir_clean dirname habs).ne_nil hsep
  have hbase : notefs.baseName (noteFilePath dirname (sanitizeTitle t))
      = sanitizeTitle t ++ ".txt".toList := by
    rw [hpath]
    exact baseName_child _ _ hsep
  obtain ⟨disk1, node, hw, hfind, hc, hm, hreg, hnodir1, hsame⟩ :=
    writeFileSync_spec disk (noteFilePath dirname (sanitizeTitle t)) content now
      (by rw [hbase]; exact hname) hlen hlast hnodir (by rw [hparent]; exact hok)
  refine ⟨disk1, ?_, ?_, ⟨node, List.mem_of_find?_eq_some hfind,
    by simpa using List.find?_some hfind⟩, hnodir1, hsame⟩
  · unfold saveNoteHandler
    simp only [hid, if_false, hw, notefs.statSync, hfind, hc, hm]
  · rw [getNoteHandler_found dirname disk1 _ node hv hlast hfind hreg, hc, hm]

/-- C12 (counterexample): the body filter of `index.js` rewrites the content
before the notes router sees it: after `POST /notes` with the content
`<script>alert(1)</script>`, `GET /notes/My Note` returns the content with
the angle brackets written as entities, not the content that was sent. -/
theorem upsert_stores_filtered_content :
    sanitizeTitle "My Note!".toList = "My Note".toList ∧
    "<script>alert(1)</script>".toList.length ≤ 10000 ∧
    (notesApi sampleXss sampleEnv ⟨some "Bearer good".toList, none⟩ (.get "My Note".toList)
        (notesApi sampleXss sampleEnv ⟨some "Bearer good".toList, none⟩
          (.upsert "My Note!".toList "<script>alert(1)</script>".toList) sampleNotes).2).1
      = .note ⟨"My Note".toList, "My Note".toList,
          "&lt;script&gt;alert(1)&lt;/script&gt;".toList, 500, 37⟩ ∧
    "&lt;script&gt;alert(1)&lt;/script&gt;".toList ≠ "<script>alert(1)</script>".toList := by
  decide

/-- C12 (amended): let `t` be the title and `c` the content after the body
filter `xss`, `t` trimmed, and `id` the sanitized `t`. When the request passes
`protect`, `__dirname` is absolute, the notes directory exists, `t` has 1 to
100 characters, `id` is not empty, `c` has at most 10000 characters, the file
name `id + ".txt"` has at most 255 bytes and the path of the note fewer than
4096 bytes (both as UTF-8), and no directory sits at the path of the note,
then `POST /notes` saves the note and `GET` of the returned id returns `c`,
the filtered content; a second `POST` with the same title and a content `c2`
(at most 10000 characters after the filter) returns the same id, and `GET` of
it returns the filtered `c2`, the file system holding as many nodes as before
the overwrite. -/
theorem upsert_then_get_returns_filtered_content (xss : Str → Str) (env : Env)
    (clock2 : Nat → Nat) (req : Request) (uid title content c2 t : Str) (disk : NoteDisk)
    (hauth : protect env.jwtVerify req = .next uid)
    (habs : env.dirname.head? = some '/')
    (hdir : disk.any (fun n => decide (n.path = notesDir env.dirname) && n.isDirectory) = true)
    (hvalid : validateNote (xss title) (xss content) = some t)
    (hc2 : (xss c2).length ≤ 10000)
    (hid : sanitizeTitle t ≠ [])
    (hname : utf8Length (sanitizeTitle t ++ ".txt".toList) ≤ notefs.NAME_MAX)
    (hlen : utf8Length (noteFilePath env.dirname (sanitizeTitle t)) < notefs.PATH_MAX)
    (hnodir : ∀ n ∈ disk, n.path = noteFilePath env.dirname (sanitizeTitle t) →
      n.isDirectory = false) :
    ∃ disk1 disk2,
      notesApi xss env req (.upsert title content) disk
        = (.saved ⟨sanitizeTitle t, sanitizeTitle t, xss content, env.clock 0,
            utf8Length (xss content)⟩, disk1) ∧
      notesApi xss env req (.get (sanitizeTitle t)) disk1
        = (.note ⟨sanitizeTitle t, sanitizeTitle t, xss content, env.clock 0,
            utf8Length (xss content)⟩, disk1) ∧
      notesApi xss { env with clock := clock2 } req (.upsert title c2) disk1
        = (.saved ⟨sanitizeTitle t, sanitizeTitle t, xss c2, clock2 0,
            utf8Length (xss c2)⟩, disk2) ∧
      notesApi xss env req (.get (sanitizeTitle t)) disk2
        = (.note ⟨sanitizeTitle t, sanitizeTitle t, xss c2, clock2 0,
            utf8Length (xss c2)⟩, disk2) ∧
      disk2.length = disk1.length := by
  have hvalid2 : validateNote (xss title) (xss c2) = some t := by
    unfold validateNote at hvalid ⊢
    simp only at hvalid ⊢
    split_ifs at hvalid with h
    cases hvalid
    rw [if_pos ⟨h.1, h.2.1, hc2⟩]
  obtain ⟨disk1, hs1, hg1, hex1, hnodir1, _⟩ :=
    saveNoteHandler_saved env.dirname disk (env.clock 0) t (xss content) habs hid hname hlen
      hnodir (Or.inr hdir)
  obtain ⟨disk2, hs2, hg2, _, _, hlen⟩ :=
    saveNoteHandler_saved env.dirname disk1 (clock2 0) t (xss c2) habs hid hname hlen
      hnodir1 (Or.inl hex1)
  refine ⟨disk1, disk2, ?_, ?_, ?_, ?_, hlen hex1⟩
  · simp only [notesApi, xssMiddleware, notesRouter, hauth, hvalid, hs1]
  · simp only [notesApi, xssMiddleware, notesRouter, hauth, hg1]
  · simp only [notesApi, xssMiddleware, notesRouter, hauth, hvalid2, hs2]
  · simp only [notesApi, xssMiddleware, notesRouter, hauth, hg2]

theorem upsert_then_get_returns_filtered_content_witness :
    ∃ disk1 disk2,
      notesApi sampleXss sampleEnv ⟨some "Bearer good".toList, none⟩
          (.upsert "Shopping <list>".toList "<script>eggs</script>".toList) sampleNotes
        = (.saved ⟨sanitizeTitle "Shopping &lt;list&gt;".toList,
            sanitizeTitle "Shopping &lt;list&gt;".toList, sampleXss "<script>eggs</script>".toList,
            sampleEnv.clock 0, utf8Length (sampleXss "<script>eggs</script>".toList)⟩, disk1) ∧
      notesApi sampleXss sampleEnv ⟨some "Bearer good".toList, none⟩
          (.get (sanitizeTitle "Shopping &lt;list&gt;".toList)) disk1
        = (.note ⟨sanitizeTitle "Shopping &lt;list&gt;".toList,
            sanitizeTitle "Shopping &lt;list&gt;".toList, sampleXss "<script>eggs</script>".toList,
            sampleEnv.clock 0, utf8Length (sampleXss "<script>eggs</script>".toList)⟩, disk1) ∧
      notesApi sampleXss { sampleEnv with clock := fun _ => 900 }
          ⟨some "Bearer good".toList, none⟩
          (.upsert "Shopping <list>".toList "milk".toList) disk1
        = (.saved ⟨sanitizeTitle "Shopping &lt;list&gt;".toList,
            sanitizeTitle "Shopping &lt;list&gt;".toList, sampleXss "milk".toList,
            (fun _ => 900) 0, utf8Length (sampleXss "milk".toList)⟩, disk2) ∧
      notesApi sampleXss sampleEnv ⟨some "Bearer good".toList, none⟩
          (.get (sanitizeTitle "Shopping &lt;list&gt;".toList)) disk2
        = (.note ⟨sanitizeTitle "Shopping &lt;list&gt;".toList,
            sanitizeTitle "Shopping &lt;list&gt;".toList, sampleXss "milk".toList,
            (fun _ => 900) 0, utf8Length (sampleXss "milk".toList)⟩, disk2) ∧
      disk2.length = disk1.length :=
  upsert_then_get_returns_filtered_content sampleXss sampleEnv (fun _ => 900)
    ⟨some "Bearer good".toList, none⟩ "1".toList "Shopping <list>".toList
    "<script>eggs</script>".toList "milk".toList "Shopping &lt;list&gt;".toList sampleNotes
    (by decide) (by decide) (by decide) (by decide) (by decide) (by decide) (by decide)
    (by decide) (by decide)

/-- Without a token in the request `protect` answers 401. -/
theorem protect_without_token (jwtVerify : Str → Option Str) (req : Request)
    (h : requestToken req = none ∨ requestToken req = some []) :
    protect jwtVerify req
      = .reject 401 "You are not logged in! Please log in to get access.".toList := by
  unfold protect
  rcases h with h | h
  · rw [h]
  · rw [h]
    rfl

/-- C15: a request from which `protect` takes no token, in particular one
with neither an Authorization header nor a jwt cookie, is answered 401 on
every route of the files router (upload, list, download, delete, share,
redeem) and of the notes router (list, get, upsert, delete), and the uploads
directory, the share registry and the notes directory are left as they
were. -/
theorem anonymous_request_is_401 (xss : Str → Str) (env : Env) (req : Request)
    (st : AppState) (h : requestToken req = none ∨ requestToken req = some []) :
    (∀ route : FilesRoute,
      api xss env req (.files route) st
        = (.files (.error 401 "You are not logged in! Please log in to get access.".toList),
            st)) ∧
    (∀ route : NotesRoute,
      api xss env req (.notes route) st
        = (.notes (.error 401 "You are not logged in! Please log in to get access.".toList),
            st)) := by
  have hp := protect_without_token env.jwtVerify req h
  constructor
  · intro route
    simp only [api, filesRouter, hp]
  · intro route
    simp only [api, notesApi, notesRouter, hp]

theorem anonymous_request_is_401_witness :
    (∀ route : FilesRoute,
      api sampleXss sampleEnv ⟨none, none⟩ (.files route) ⟨sampleState, sampleNotes⟩
        = (.files (.error 401 "You are not logged in! Please log in to get access.".toList),
            ⟨sampleState, sampleNotes⟩)) ∧
    (∀ route : NotesRoute,
      api sampleXss sampleEnv ⟨none, none⟩ (.notes route) ⟨sampleState, sampleNotes⟩
        = (.notes (.error 401 "You are not logged in! Please log in to get access.".toList),
            ⟨sampleState, sampleNotes⟩)) :=
  anonymous_request_is_401 sampleXss sampleEnv ⟨none, none⟩ ⟨sampleState, sampleNotes⟩
    (Or.inl rfl)

/-! ## Lemmas on the session token -/

theorem toDigitsCore_ne_nil (fuel : Nat) :
    ∀ (n : Nat) (ds : List Char), ds ≠ [] → Nat.toDigitsCore 10 fuel n ds ≠ [] := by
  induction fuel with
  | zero => intro n ds h; simpa [Nat.toDigitsCore] using h
  | succ f ih =>
    intro n ds _
    simp only [Nat.toDigitsCore]
    split_ifs
    · simp
    · exact ih _ _ (by simp)

theorem toDigits_ne_nil (n : Nat) : Nat.toDigits 10 n ≠ [] := by
  unfold Nat.toDigits
  simp only [Nat.toDigitsCore]
  split_ifs
  · simp
  · exact toDigitsCore_ne_nil _ _ _ (by simp)

theorem parseNat_toDigits (n : Nat) : parseNat (Nat.toDigits 10 n) = some n := by
  unfold parseNat
  rw [if_pos ⟨toDigits_ne_nil n, List.all_eq_true.2 (toDigits_isDigit n)⟩]
  have h := foldl_toDigitsCore (n + 1) n [] (by omega)
  unfold Nat.toDigits
  rw [h]
  rfl

theorem not_mem_toDigits (c : Char) (hc : c.isDigit = false) (n : Nat) :
    c ∉ Nat.toDigits 10 n := by
  intro hm
  rw [toDigits_isDigit n c hm] at hc
  exact absurd hc (by decide)

theorem encodeText_cons (c : Char) (s : Str) :
    encodeText (c :: s) = Nat.toDigits 10 c.toNat ++ '_' :: encodeText s := by
  simp [encodeText, List.flatMap_cons]

theorem mem_encodeText (s : Str) : ∀ c ∈ encodeText s, c.isDigit = true ∨ c = '_' := by
  induction s with
  | nil => intro c hc; simp [encodeText] at hc
  | cons a s ih =>
    intro c hc
    rw [encodeText_cons] at hc
    rcases List.mem_append.1 hc with h | h
    · exact Or.inl (toDigits_isDigit _ c h)
    · rcases List.mem_cons.1 h with rfl | h1
      · exact Or.inr rfl
      · exact ih c h1

theorem not_mem_encodeText (c : Char) (hc : c.isDigit = false) (hu : c ≠ '_') (s : Str) :
    c ∉ encodeText s := by
  intro hm
  rcases mem_encodeText s c hm with h | h
  · rw [h] at hc
    exact absurd hc (by decide)
  · exact hu h

theorem decodeText_encodeText (s : Str) : decodeText (encodeText s) = some s := by
  unfold decodeText
  induction s with
  | nil => rfl
  | cons c s ih =>
    rw [encodeText_cons, split_append_sep '_' _ _ (not_mem_toDigits '_' (by decide) _)]
    cases hsp : split '_' (encodeText s) with
    | nil => exact absurd hsp (split_ne_nil _ _)
    | cons a r =>
      rw [hsp] at ih
      simp only [decodePieces, parseNat_toDigits, ih]
      rw [Char.ofNat_toNat]

/-- The four parts of an issued token. -/
theorem split_jwtSign (mac : Str → Str → Nat) (key : Str) (expiresIn now : Nat) (id : Str) :
    split '.' (jwtSign mac key expiresIn now id)
      = [encodeText id, Nat.toDigits 10 now, Nat.toDigits 10 (now + expiresIn),
          Nat.toDigits 10 (mac key (encodeText id ++ '.' ::
            (Nat.toDigits 10 now ++ '.' :: Nat.toDigits 10 (now + expiresIn))))] := by
  unfold jwtSign
  simp only [List.append_assoc, List.cons_append]
  rw [split_append_sep '.' _ _ (not_mem_encodeText '.' (by decide) (by decide) id),
    split_append_sep '.' _ _ (not_mem_toDigits '.' (by decide) _),
    split_append_sep '.' _ _ (not_mem_toDigits '.' (by decide) _),
    split_of_not_mem '.' _ (not_mem_toDigits '.' (by decide) _)]

theorem jwtSign_no_space (mac : Str → Str → Nat) (key : Str) (expiresIn now : Nat) (id : Str) :
    ' ' ∉ jwtSign mac key expiresIn now id ∧ jwtSign mac key expiresIn now id ≠ [] := by
  constructor
  · unfold jwtSign
    simp only [List.mem_append, List.mem_cons, not_or]
    exact ⟨⟨not_mem_encodeText ' ' (by decide) (by decide) id, by decide,
      not_mem_toDigits ' ' (by decide) _, by decide, not_mem_toDigits ' ' (by decide) _⟩,
      by decide, not_mem_toDigits ' ' (by decide) _⟩
  · unfold jwtSign
    simp

/-- Verification of an issued token: the subject id before the expiry, a
rejection from the expiry on. -/
theorem jwtVerify_jwtSign (mac : Str → Str → Nat) (key : Str) (expiresIn t0 now : Nat)
    (id : Str) :
    jwtVerify mac key now (jwtSign mac key expiresIn t0 id)
      = if now < t0 + expiresIn then some id else none := by
  unfold jwtVerify
  rw [split_jwtSign]
  simp only [decodeText_encodeText, parseNat_toDigits, true_and]

theorem jwtVerify_malformed (mac : Str → Str → Nat) (key : Str) (now : Nat) (token : Str)
    (h : tokenMalformed token) : jwtVerify mac key now token = none := by
  unfold jwtVerify
  split
  · rename_i p1 p2 p3 p4 hs
    split
    · rename_i id iat exp h1 h2 h3
      exact absurd ⟨p1, p2, p3, p4, id, iat, exp, hs, h1, h2, h3⟩ h
    · rfl
  · rfl

theorem jwtVerify_signatureFails (mac : Str → Str → Nat) (key : Str) (now : Nat) (token : Str)
    (h : signatureFails mac key token) : jwtVerify mac key now token = none := by
  obtain ⟨p1, p2, p3, p4, hs, hne⟩ := h
  unfold jwtVerify
  rw [hs]
  simp only
  split
  · rw [if_neg (fun hh => hne hh.1)]
  · rfl

/-- What `protect` does with a token that comes after `Bearer ` in the
header. -/
theorem protect_bearer (jwtVerify : Str → Option Str) (tok : Str) (cookie : Option Str)
    (hne : tok ≠ []) (hsp : ' ' ∉ tok) :
    protect jwtVerify ⟨some ("Bearer ".toList ++ tok), cookie⟩
      = match jwtVerify tok with
        | none => .reject 401 "Invalid token. Please log in again!".toList
        | some id => .next id := by
  have hB : startsWith ("Bearer ".toList ++ tok) "Bearer".toList = true :=
    startsWith_append "Bearer".toList (' ' :: tok)
  have hs : split ' ' ("Bearer ".toList ++ tok) = ["Bearer".toList, tok] := by
    have h1 := split_append_sep ' ' "Bearer".toList tok (by decide)
    rw [split_of_not_mem ' ' tok hsp] at h1
    exact h1
  unfold protect
  rw [requestToken_bearer _ cookie hB, hs]
  simp only [List.getElem?_cons_succ, List.getElem?_cons_zero, hne, if_false]

/-- What `protect` does with a token that comes in the cookie alone. -/
theorem protect_cookie (jwtVerify : Str → Option Str) (tok : Str) (hne : tok ≠ []) :
    protect jwtVerify ⟨none, some tok⟩
      = match jwtVerify tok with
        | none => .reject 401 "Invalid token. Please log in again!".toList
        | some id => .next id := by
  unfold protect requestToken
  simp only [hne, ne_eq, not_false_eq_true, if_true, if_false]

/-- C13: for every subject id, the token `signToken(id)` issues at time `t0`
is accepted by `protect` at every time before its expiry `t0 + expiresIn`,
in the header after `Bearer ` or in the jwt cookie, with `req.user.id = id`;
from its expiry on it is answered 401; and every request whose token is
malformed or carries a signature that does not verify under the signing key
is answered 401, `next` not being called. -/
theorem issued_token_accepted_until_expiry (mac : Str → Str → Nat) (key : Str)
    (expiresIn t0 now : Nat) (id : Str) (cookie : Option Str) :
    (now < t0 + expiresIn →
      protect (jwtVerify mac key now)
          ⟨some ("Bearer ".toList ++ signToken (jwtSign mac key expiresIn t0) id), cookie⟩
        = .next id ∧
      protect (jwtVerify mac key now)
          ⟨none, some (signToken (jwtSign mac key expiresIn t0) id)⟩
        = .next id) ∧
    (t0 + expiresIn ≤ now →
      protect (jwtVerify mac key now)
          ⟨some ("Bearer ".toList ++ signToken (jwtSign mac key expiresIn t0) id), cookie⟩
        = .reject 401 "Invalid token. Please log in again!".toList ∧
      protect (jwtVerify mac key now)
          ⟨none, some (signToken (jwtSign mac key expiresIn t0) id)⟩
        = .reject 401 "Invalid token. Please log in again!".toList) ∧
    (∀ req token, requestToken req = some token →
      tokenMalformed token ∨ signatureFails mac key token →
      ∃ message, protect (jwtVerify mac key now) req = .reject 401 message) := by
  obtain ⟨hsp, hne⟩ := jwtSign_no_space mac key expiresIn t0 id
  have hb := protect_bearer (jwtVerify mac key now) _ cookie hne hsp
  have hc := protect_cookie (jwtVerify mac key now) _ hne
  rw [jwtVerify_jwtSign] at hb hc
  refine ⟨fun h => ?_, fun h => ?_, fun req token hreq hbad => ?_⟩
  · rw [if_pos h] at hb hc
    exact ⟨hb, hc⟩
  · rw [if_neg (Nat.not_lt.2 h)] at hb hc
    exact ⟨hb, hc⟩
  · have hv : jwtVerify mac key now token = none := by
      rcases hbad with h | h
      · exact jwtVerify_malformed mac key now token h
      · exact jwtVerify_signatureFails mac key now token h
    unfold protect
    rw [hreq]
    simp only [hv]
    split_ifs
    · exact ⟨_, rfl⟩
    · exact ⟨_, rfl⟩

theorem issued_token_accepted_until_expiry_witness :
    (protect (jwtVerify sampleMac (JWT_SECRET none) 2000)
          ⟨some ("Bearer ".toList
            ++ signToken (jwtSign sampleMac (JWT_SECRET none) (JWT_EXPIRES_IN none) 1000)
              "1".toList), some "stale".toList⟩
        = .next "1".toList ∧
      protect (jwtVerify sampleMac (JWT_SECRET none) 2000)
          ⟨none, some (signToken
            (jwtSign sampleMac (JWT_SECRET none) (JWT_EXPIRES_IN none) 1000) "1".toList)⟩
        = .next "1".toList) ∧
    (protect (jwtVerify sampleMac (JWT_SECRET none) 86401001)
          ⟨some ("Bearer ".toList
            ++ signToken (jwtSign sampleMac (JWT_SECRET none) (JWT_EXPIRES_IN none) 1000)
              "1".toList), some "stale".toList⟩
        = .reject 401 "Invalid token. Please log in again!".toList ∧
      protect (jwtVerify sampleMac (JWT_SECRET none) 86401001)
          ⟨none, some (signToken
            (jwtSign sampleMac (JWT_SECRET none) (JWT_EXPIRES_IN none) 1000) "1".toList)⟩
        = .reject 401 "Invalid token. Please log in again!".toList) ∧
    (∃ message, protect (jwtVerify sampleMac (JWT_SECRET none) 2000)
        ⟨some "Bearer 49_.1000.86401000.77".toList, none⟩ = .reject 401 message) :=
  ⟨(issued_token_accepted_until_expiry sampleMac (JWT_SECRET none) (JWT_EXPIRES_IN none)
      1000 2000 "1".toList (some "stale".toList)).1 (by decide),
    (issued_token_accepted_until_expiry sampleMac (JWT_SECRET none) (JWT_EXPIRES_IN none)
      1000 86401001 "1".toList (some "stale".toList)).2.1 (by decide),
    (issued_token_accepted_until_expiry sampleMac (JWT_SECRET none) (JWT_EXPIRES_IN none)
      1000 2000 "1".toList (some "stale".toList)).2.2
      ⟨some "Bearer 49_.1000.86401000.77".toList, none⟩ "49_.1000.86401000.77".toList
      (by decide)
      (Or.inr ⟨"49_".toList, "1000".toList, "86401000".toList, "77".toList, by decide,
        by decide⟩)⟩

/-! ## Note paths stay in the notes directory -/

/-- A string made of characters of the class `[a-zA-Z0-9_\-\s]` holds neither
a separator of either kind nor a dot. -/
theorem no_path_chars_of_isIdChar (s : Str) (h : ∀ c ∈ s, isIdChar c = true) :
    '/' ∉ s ∧ '\\' ∉ s ∧ '.' ∉ s :=
  ⟨fun hm => absurd (h _ hm) (by decide), fun hm => absurd (h _ hm) (by decide),
    fun hm => absurd (h _ hm) (by decide)⟩

/-- The file of a note with a valid id lies directly in the notes directory:
it is listed there under `<id>.txt`, the directory that holds it is the notes
directory, and it is inside the notes root. -/
theorem noteFilePath_direct_child (dirname noteId : Str) (habs : dirname.head? = some '/')
    (hid : idRegexTest noteId = true) :
    noteFilePath dirname noteId = notesDir dirname ++ '/' :: (noteId ++ ".txt".toList) ∧
    fs.childName (notesDir dirname) (noteFilePath dirname noteId)
      = some (noteId ++ ".txt".toList) ∧
    notefs.parentPath (noteFilePath dirname noteId) = notesDir dirname ∧
    insideRoot (notesDir dirname) (noteFilePath dirname noteId) = true := by
  obtain ⟨hpath, hsep, _⟩ := noteFilePath_eq dirname noteId habs hid
  have hclean := notesDir_clean dirname habs
  have hne : noteId ++ ".txt".toList ≠ [] := by simp
  refine ⟨hpath, ?_, ?_, ?_⟩
  · exact (childName_eq_some _ _ _).2 ⟨hpath, hne, hsep⟩
  · rw [hpath]
    exact parentPath_child _ _ hclean.ne_nil hsep
  · have hroot : notesDir dirname ≠ ['/'] := by
      obtain ⟨l, hl, hplain, hN⟩ := hclean
      rw [hN]
      intro e
      have hj : joinWith '/' l = [] := by simpa using e
      exact joinWith_ne_nil '/' l hl (fun s hs => (hplain s hs).1) hj
    unfold insideRoot
    rw [Bool.or_eq_true]
    right
    rw [if_neg hroot, hpath]
    exact (startsWith_iff_exists_append _ _).2 ⟨noteId ++ ".txt".toList, by simp⟩

/-- C21: every id the validator of get and delete accepts, and every
sanitized title upsert produces, holds no `/`, no backslash and no `.`; so
the path `notesDir/<id>.txt` that the handlers read, write or delete is a
direct child of the notes directory (listed there under `<id>.txt`, held by
the notes directory, inside the notes root), for a valid id as for a
non-empty sanitized title. -/
theorem note_paths_stay_in_notes_dir (dirname noteId title : Str)
    (habs : dirname.head? = some '/') (hid : idRegexTest noteId = true) :
    ('/' ∉ noteId ∧ '\\' ∉ noteId ∧ '.' ∉ noteId) ∧
    ('/' ∉ sanitizeTitle title ∧ '\\' ∉ sanitizeTitle title ∧ '.' ∉ sanitizeTitle title) ∧
    (noteFilePath dirname noteId = notesDir dirname ++ '/' :: (noteId ++ ".txt".toList) ∧
      fs.childName (notesDir dirname) (noteFilePath dirname noteId)
        = some (noteId ++ ".txt".toList) ∧
      notefs.parentPath (noteFilePath dirname noteId) = notesDir dirname ∧
      insideRoot (notesDir dirname) (noteFilePath dirname noteId) = true) ∧
    (sanitizeTitle title ≠ [] →
      noteFilePath dirname (sanitizeTitle title)
        = notesDir dirname ++ '/' :: (sanitizeTitle title ++ ".txt".toList) ∧
      fs.childName (notesDir dirname) (noteFilePath dirname (sanitizeTitle title))
        = some (sanitizeTitle title ++ ".txt".toList) ∧
      notefs.parentPath (noteFilePath dirname (sanitizeTitle title)) = notesDir dirname ∧
      insideRoot (notesDir dirname) (noteFilePath dirname (sanitizeTitle title)) = true) := by
  have hall : ∀ c ∈ noteId, isIdChar c = true := by
    unfold idRegexTest at hid
    rw [Bool.and_eq_true, List.all_eq_true] at hid
    exact hid.2
  exact ⟨no_path_chars_of_isIdChar noteId hall,
    no_path_chars_of_isIdChar _ (sanitizeTitle_all title),
    noteFilePath_direct_child dirname noteId habs hid,
    fun hne => noteFilePath_direct_child dirname _ habs (idRegexTest_sanitizeTitle title hne)⟩

theorem note_paths_stay_in_notes_dir_witness :
    ('/' ∉ "My Note".toList ∧ '\\' ∉ "My Note".toList ∧ '.' ∉ "My Note".toList) ∧
    ('/' ∉ sanitizeTitle "../../etc/passwd".toList
      ∧ '\\' ∉ sanitizeTitle "../../etc/passwd".toList
      ∧ '.' ∉ sanitizeTitle "../../etc/passwd".toList) ∧
    (noteFilePath sampleDirname "My Note".toList
        = notesDir sampleDirname ++ '/' :: ("My Note".toList ++ ".txt".toList) ∧
      fs.childName (notesDir sampleDirname) (noteFilePath sampleDirname "My Note".toList)
        = some ("My Note".toList ++ ".txt".toList) ∧
      notefs.parentPath (noteFilePath sampleDirname "My Note".toList)
        = notesDir sampleDirname ∧
      insideRoot (notesDir sampleDirname) (noteFilePath sampleDirname "My Note".toList)
        = true) ∧
    (noteFilePath sampleDirname (sanitizeTitle "../../etc/passwd".toList)
        = notesDir sampleDirname
          ++ '/' :: (sanitizeTitle "../../etc/passwd".toList ++ ".txt".toList) ∧
      fs.childName (notesDir sampleDirname)
          (noteFilePath sampleDirname (sanitizeTitle "../../etc/passwd".toList))
        = some (sanitizeTitle "../../etc/passwd".toList ++ ".txt".toList) ∧
      notefs.parentPath (noteFilePath sampleDirname (sanitizeTitle "../../etc/passwd".toList))
        = notesDir sampleDirname ∧
      insideRoot (notesDir sampleDirname)
          (noteFilePath sampleDirname (sanitizeTitle "../../etc/passwd".toList))
        = true) :=
  ⟨(note_paths_stay_in_notes_dir sampleDirname "My Note".toList "../../etc/passwd".toList
      (by decide) (by decide)).1,
    (note_paths_stay_in_notes_dir sampleDirname "My Note".toList "../../etc/passwd".toList
      (by decide) (by decide)).2.1,
    (note_paths_stay_in_notes_dir sampleDirname "My Note".toList "../../etc/passwd".toList
      (by decide) (by decide)).2.2.1,
    (note_paths_stay_in_notes_dir sampleDirname "My Note".toList "../../etc/passwd".toList
      (by decide) (by decide)).2.2.2 (by decide)⟩

/-- A title within the validator's 100 characters whose file name is longer
than `NAME_MAX` bytes: the letter `a`, 98 ideographic spaces (three bytes
each) and the letter `b`. The write throws and the save is passed on as an
error, the file system unchanged. -/
theorem save_long_name_is_passed_on :
    validateNote ('a' :: List.replicate 98 '\u3000' ++ ['b']) "x".toList
      = some ('a' :: List.replicate 98 '\u3000' ++ ['b']) ∧
    utf8Length (sanitizeTitle ('a' :: List.replicate 98 '\u3000' ++ ['b']) ++ ".txt".toList)
      = 300 ∧
    notesApi (fun s => s) sampleEnv ⟨some "Bearer good".toList, none⟩
        (.upsert ('a' :: List.replicate 98 '\u3000' ++ ['b']) "x".toList) sampleNotes
      = (.nextError, sampleNotes) := by
  refine ⟨by decide, by decide, by decide⟩

/-! ## What a save leaves, and the id it returns -/

/-- A `writeFileSync` that returns has left a regular file at the path, with
the content and the time written. -/
theorem writeFileSync_some (disk disk1 : NoteDisk) (p c : Str) (now : Nat)
    (h : notefs.writeFileSync disk p c now = some disk1) :
    p.getLast? ≠ some '/' ∧
    ∃ node, disk1.find? (fun n => decide (n.path = p)) = some node ∧
      node.content = c ∧ node.mtime = now ∧ node.isDirectory = false := by
  by_cases hlong : notefs.NAME_MAX < utf8Length (notefs.baseName p) ∨
      notefs.PATH_MAX ≤ utf8Length p
  · unfold notefs.writeFileSync at h
    rw [if_pos hlong] at h
    cases h
  by_cases hnd : p.getLast? = some '/' ∨
      disk.any (fun n => decide (n.path = p) && n.isDirectory) = true
  · unfold notefs.writeFileSync at h
    rw [if_neg hlong, if_pos hnd] at h
    cases h
  have hok : (∃ n ∈ disk, n.path = p) ∨
      disk.any (fun n => decide (n.path = notefs.parentPath p) && n.isDirectory) = true := by
    by_cases hany : disk.any (fun n => decide (n.path = p)) = true
    · left
      obtain ⟨n, hn, hh⟩ := List.any_eq_true.1 hany
      exact ⟨n, hn, by simpa using hh⟩
    · by_cases hpar : disk.any
          (fun n => decide (n.path = notefs.parentPath p) && n.isDirectory) = true
      · exact Or.inr hpar
      · unfold notefs.writeFileSync at h
        rw [if_neg hlong, if_neg hnd, if_neg hany, if_neg hpar] at h
        cases h
  have hlast : p.getLast? ≠ some '/' := fun e => hnd (Or.inl e)
  have hnodir : ∀ n ∈ disk, n.path = p → n.isDirectory = false := by
    intro n hn hp
    cases hd : n.isDirectory with
    | false => rfl
    | true =>
      exact absurd (Or.inr (List.any_eq_true.2 ⟨n, hn, by simp [hp, hd]⟩)) hnd
  obtain ⟨d, node, hw, hfind, hc, hm, hreg, _, _⟩ :=
    writeFileSync_spec disk p c now (Nat.le_of_not_lt (fun e => hlong (Or.inl e)))
      (Nat.lt_of_not_le (fun e => hlong (Or.inr e))) hlast hnodir hok
  rw [h] at hw
  cases hw
  exact ⟨hlast, node, hfind, hc, hm, hreg⟩

/-- Deleting a note whose file is a regular file of the disk removes the
nodes at its path and no other. -/
theorem deleteNoteHandler_file (dirname : Str) (disk : NoteDisk) (noteId : Str)
    (hid : idRegexTest noteId = true)
    (hlast : (noteFilePath dirname noteId).getLast? ≠ some '/')
    (hex : ∃ n ∈ disk, n.path = noteFilePath dirname noteId ∧ n.isDirectory = false) :
    deleteNoteHandler dirname disk noteId
      = (.deleted, disk.filter (fun n => decide (n.path ≠ noteFilePath dirname noteId))) := by
  obtain ⟨n, hn, hp, hreg⟩ := hex
  have hexi : notefs.existsSync disk (noteFilePath dirname noteId) = true := by
    unfold notefs.existsSync
    rw [if_neg (fun h => hlast h.2)]
    exact List.any_eq_true.2 ⟨n, hn, by simp only [hp, decide_True]⟩
  have hany : disk.any
      (fun n => decide (n.path = noteFilePath dirname noteId) && !n.isDirectory) = true :=
    List.any_eq_true.2 ⟨n, hn, by simp only [hp, hreg, decide_True, Bool.not_false,
      Bool.and_self]⟩
  rw [deleteNoteHandler_valid dirname disk noteId hid, if_neg (by rw [hexi]; decide)]
  unfold notefs.unlinkSync
  rw [if_pos hany]

/-- Reading a note with a valid id that is not on the disk answers 404. -/
theorem getNoteHandler_absent (dirname : Str) (disk : NoteDisk) (noteId : Str)
    (hid : idRegexTest noteId = true)
    (hex : notefs.existsSync disk (noteFilePath dirname noteId) = false) :
    getNoteHandler dirname disk noteId = .error 404 "Note not found".toList := by
  unfold getNoteHandler
  simp only [hid, hex, Bool.not_true, Bool.not_false, Bool.false_eq_true, if_false, if_true]

/-- What `saveNoteHandler` has done when it answers with a saved note: the id
is the sanitized title, not empty, and the file of that id holds the entry
returned. -/
theorem saveNoteHandler_some (dirname : Str) (disk disk1 : NoteDisk) (now : Nat)
    (title content : Str) (e : NoteEntry)
    (h : saveNoteHandler dirname disk now title content = (.saved e, disk1)) :
    sanitizeTitle title ≠ [] ∧
    e = ⟨sanitizeTitle title, sanitizeTitle title, content, now, utf8Length content⟩ ∧
    (noteFilePath dirname (sanitizeTitle title)).getLast? ≠ some '/' ∧
    ∃ node, disk1.find? (fun n => decide (n.path = noteFilePath dirname (sanitizeTitle title)))
        = some node ∧
      node.content = content ∧ node.mtime = now ∧ node.isDirectory = false := by
  unfold saveNoteHandler at h
  by_cases hs : sanitizeTitle title = []
  · simp only [hs, if_true] at h
    cases h
  · simp only [hs, if_false] at h
    cases hw : notefs.writeFileSync disk (noteFilePath dirname (sanitizeTitle title)) content now
      with
    | none =>
      rw [hw] at h
      cases h
    | some d =>
      obtain ⟨hlast, node, hfind, hc, hm, hreg⟩ := writeFileSync_some _ _ _ _ _ hw
      rw [hw] at h
      simp only [notefs.statSync, hfind, hc, hm] at h
      cases h
      exact ⟨hs, rfl, hlast, node, hfind, hc, hm, hreg⟩

/-- C20: every id the note upsert handler returns is accepted by the id
validator of get and delete. For every title, if stripping the characters
outside `[a-zA-Z0-9_\-\s]` and trimming leaves a non-empty string, that string
matches `^[a-zA-Z0-9_\-\s]+$` and sanitizes to itself. And whenever the upsert
handler answers with a saved note, the id it returns is that sanitized title,
is not empty, passes the validator and sanitizes to itself; get of the id on
the file system the save leaves returns the very entry the save returned;
delete of the id succeeds and removes the nodes at the path of the note and
no other; and get of the id after that delete answers 404. -/
theorem returned_id_is_valid (dirname : Str) (disk : NoteDisk) (now : Nat)
    (title content : Str) :
    (sanitizeTitle title ≠ [] →
      idRegexTest (sanitizeTitle title) = true ∧
      sanitizeTitle (sanitizeTitle title) = sanitizeTitle title) ∧
    (∀ e disk1, saveNoteHandler dirname disk now title content = (.saved e, disk1) →
      e.id = sanitizeTitle title ∧
      e.id ≠ [] ∧
      idRegexTest e.id = true ∧
      sanitizeTitle e.id = e.id ∧
      getNoteHandler dirname disk1 e.id = .note e ∧
      deleteNoteHandler dirname disk1 e.id
        = (.deleted, disk1.filter (fun n => decide (n.path ≠ noteFilePath dirname e.id))) ∧
      getNoteHandler dirname
          (disk1.filter (fun n => decide (n.path ≠ noteFilePath dirname e.id))) e.id
        = .error 404 "Note not found".toList) := by
  refine ⟨fun h => ⟨idRegexTest_sanitizeTitle title h, sanitizeTitle_idempotent title⟩,
    fun e disk1 h => ?_⟩
  obtain ⟨hs, he, hlast, node, hfind, hc, hm, hreg⟩ :=
    saveNoteHandler_some dirname disk disk1 now title content e h
  have hv := idRegexTest_sanitizeTitle title hs
  have hid : e.id = sanitizeTitle title := by rw [he]
  rw [hid]
  refine ⟨rfl, hs, hv, sanitizeTitle_idempotent title, ?_, ?_, ?_⟩
  · rw [getNoteHandler_found dirname disk1 _ node hv hlast hfind hreg, hc, hm, he]
  · exact deleteNoteHandler_file dirname disk1 _ hv hlast
      ⟨node, List.mem_of_find?_eq_some hfind, by simpa using List.find?_some hfind, hreg⟩
  · exact getNoteHandler_absent dirname _ _ hv (notefs_existsSync_filter disk1 _ hlast)

theorem returned_id_is_valid_witness :
    sanitizeTitle "My Note!".toList ≠ [] ∧
    (idRegexTest (sanitizeTitle "My Note!".toList) = true ∧
      sanitizeTitle (sanitizeTitle "My Note!".toList) = sanitizeTitle "My Note!".toList) ∧
    saveNoteHandler sampleDirname sampleNotes 700 "My Note!".toList "hi".toList
      = (.saved (NoteEntry.mk "My Note".toList "My Note".toList "hi".toList 700 2),
          [ ⟨"/app/server/notes".toList, true, [], 0⟩,
            ⟨"/app/server/notes/todo.txt".toList, false, "milk".toList, 100⟩,
            ⟨"/app/server/notes/My Note.txt".toList, false, "hi".toList, 700⟩ ]) ∧
    (NoteEntry.mk "My Note".toList "My Note".toList "hi".toList 700 2).id
      = sanitizeTitle "My Note!".toList ∧
    (NoteEntry.mk "My Note".toList "My Note".toList "hi".toList 700 2).id ≠ [] ∧
    idRegexTest (NoteEntry.mk "My Note".toList "My Note".toList "hi".toList 700 2).id = true ∧
    sanitizeTitle (NoteEntry.mk "My Note".toList "My Note".toList "hi".toList 700 2).id
      = (NoteEntry.mk "My Note".toList "My Note".toList "hi".toList 700 2).id ∧
    getNoteHandler sampleDirname
        [ ⟨"/app/server/notes".toList, true, [], 0⟩,
          ⟨"/app/server/notes/todo.txt".toList, false, "milk".toList, 100⟩,
          ⟨"/app/server/notes/My Note.txt".toList, false, "hi".toList, 700⟩ ]
        (NoteEntry.mk "My Note".toList "My Note".toList "hi".toList 700 2).id
      = .note (NoteEntry.mk "My Note".toList "My Note".toList "hi".toList 700 2) ∧
    deleteNoteHandler sampleDirname
        [ ⟨"/app/server/notes".toList, true, [], 0⟩,
          ⟨"/app/server/notes/todo.txt".toList, false, "milk".toList, 100⟩,
          ⟨"/app/server/notes/My Note.txt".toList, false, "hi".toList, 700⟩ ]
        (NoteEntry.mk "My Note".toList "My Note".toList "hi".toList 700 2).id
      = (.deleted,
          List.filter
            (fun n => decide (n.path ≠ noteFilePath sampleDirname
              (NoteEntry.mk "My Note".toList "My Note".toList "hi".toList 700 2).id))
            [ ⟨"/app/server/notes".toList, true, [], 0⟩,
              ⟨"/app/server/notes/todo.txt".toList, false, "milk".toList, 100⟩,
              ⟨"/app/server/notes/My Note.txt".toList, false, "hi".toList, 700⟩ ]) ∧
    getNoteHandler sampleDirname
        (List.filter
          (fun n => decide (n.path ≠ noteFilePath sampleDirname
            (NoteEntry.mk "My Note".toList "My Note".toList "hi".toList 700 2).id))
          [ ⟨"/app/server/notes".toList, true, [], 0⟩,
            ⟨"/app/server/notes/todo.txt".toList, false, "milk".toList, 100⟩,
            ⟨"/app/server/notes/My Note.txt".toList, false, "hi".toList, 700⟩ ])
        (NoteEntry.mk "My Note".toList "My Note".toList "hi".toList 700 2).id
      = .error 404 "Note not found".toList :=
  ⟨by decide,
    (returned_id_is_valid sampleDirname sampleNotes 700 "My Note!".toList "hi".toList).1
      (by decide),
    by decide,
    (returned_id_is_valid sampleDirname sampleNotes 700 "My Note!".toList "hi".toList).2 _ _
      (by decide)⟩

/-! ## The notes listing, file by file -/

theorem IsCleanPath.getLast?_ne_sep {p : Str} (h : IsCleanPath p) :
    p.getLast? ≠ some '/' := by
  obtain ⟨segs, hne, hplain, rfl⟩ := h
  have hlast := List.dropLast_append_getLast hne
  have hmem : segs.getLast hne ∈ segs := List.getLast_mem hne
  obtain ⟨hf, _, _, hs⟩ := hplain _ hmem
  by_cases hinit : segs.dropLast = []
  · rw [hinit, List.nil_append] at hlast
    rw [← hlast]
    exact getLast?_append_sep_cons [] _ hf hs
  · rw [← hlast, joinWith_append_singleton '/' _ _ hinit]
    exact getLast?_append_sep_cons ('/' :: joinWith '/' segs.dropLast) _ hf hs

/-- On a disk whose paths are unique, the node found at the path of a node of
the disk is that node. -/
theorem find?_path_of_nodup (disk : NoteDisk) (hnd : (disk.map NoteNode.path).Nodup)
    (n : NoteNode) (hn : n ∈ disk) :
    disk.find? (fun k => decide (k.path = n.path)) = some n := by
  induction disk with
  | nil => simp at hn
  | cons a l ih =>
    rw [List.map_cons, List.nodup_cons] at hnd
    by_cases ha : a.path = n.path
    · rcases List.mem_cons.1 hn with rfl | h
      · simp
      · exact absurd (by rw [ha]; exact List.mem_map_of_mem NoteNode.path h) hnd.1
    · have hn1 : n ∈ l := by
        rcases List.mem_cons.1 hn with rfl | h
        · exact absurd rfl ha
        · exact h
      rw [List.find?_cons_of_neg _ (by simp [ha])]
      exact ih hnd.2 hn1

/-- The listing callback on the name of a regular `.txt` file of the notes
directory returns the note read from that very node. -/
theorem listedNote_of_node (dirname : Str) (disk : NoteDisk) (habs : dirname.head? = some '/')
    (hnd : (disk.map NoteNode.path).Nodup) (n : NoteNode) (hn : n ∈ disk) (f : Str)
    (hchild : fs.childName (notesDir dirname) n.path = some f)
    (htxt : endsWith f ".txt".toList = true) (hreg : n.isDirectory = false) :
    listedNote dirname disk f
      = some ⟨replaceFirst ".txt".toList [] f, replaceFirst ".txt".toList [] f, n.content,
          n.mtime, utf8Length n.content⟩ := by
  obtain ⟨hpath, hne, hsep⟩ := (childName_eq_some _ _ _).1 hchild
  have hplain := isPlainSegment_of_txt_child f hne hsep htxt
  have hjoin := join_clean_child (notesDir dirname) f (notesDir_clean dirname habs) hplain
  have hfind := find?_path_of_nodup disk hnd n hn
  rw [hpath] at hfind
  unfold listedNote
  simp only [hjoin, notefs.statSync, notefs.readFileSync, hfind, hreg, Bool.false_eq_true,
    if_false]

/-- The callback of the listing, run over the `.txt` names of the notes
directory, collects the notes of the `.txt` files of the disk, node by
node. -/
theorem mapOrThrow_listedNote (dirname : Str) (disk : NoteDisk)
    (habs : dirname.head? = some '/') (hnd : (disk.map NoteNode.path).Nodup)
    (hreg : ∀ n ∈ disk, ∀ f, fs.childName (notesDir dirname) n.path = some f →
      endsWith f ".txt".toList = true → n.isDirectory = false) :
    ∀ l : NoteDisk, (∀ n ∈ l, n ∈ disk) →
      mapOrThrow (listedNote dirname disk)
          ((l.filterMap (fun n => fs.childName (notesDir dirname) n.path)).filter
            (fun file => endsWith file ".txt".toList))
        = some (l.filterMap (noteOfTxtFile (notesDir dirname))) := by
  intro l
  induction l with
  | nil => intro _; rfl
  | cons a l ih =>
    intro hsub
    have ha : a ∈ disk := hsub a (List.mem_cons_self _ _)
    have ih1 := ih (fun n hn => hsub n (List.mem_cons_of_mem _ hn))
    cases hc : fs.childName (notesDir dirname) a.path with
    | none =>
      have h2 : noteOfTxtFile (notesDir dirname) a = none := by
        unfold noteOfTxtFile
        rw [hc]
      simp only [List.filterMap_cons, hc, h2]
      exact ih1
    | some f =>
      by_cases htxt : endsWith f ".txt".toList = true
      · have hr := hreg a ha f hc htxt
        have h2 : noteOfTxtFile (notesDir dirname) a
            = some ⟨replaceFirst ".txt".toList [] f, replaceFirst ".txt".toList [] f, a.content,
                a.mtime, utf8Length a.content⟩ := by
          unfold noteOfTxtFile
          rw [hc]
          simp only [htxt, hr, and_self, if_true]
        simp only [List.filterMap_cons, hc, h2, List.filter_cons, htxt, if_true, mapOrThrow,
          listedNote_of_node dirname disk habs hnd a ha f hc htxt hr, ih1]
      · have h2 : noteOfTxtFile (notesDir dirname) a = none := by
          unfold noteOfTxtFile
          rw [hc]
          exact if_neg (fun e => htxt e.1)
        simp only [List.filterMap_cons, hc, h2, List.filter_cons, htxt, Bool.false_eq_true,
          if_false]
        exact ih1

/-- The id of a note file made by the upsert route: the file name without its
extension. -/
theorem replaceFirst_txt (noteId : Str) (h : '.' ∉ noteId) :
    replaceFirst ".txt".toList [] (noteId ++ ".txt".toList) = noteId := by
  induction noteId with
  | nil => decide
  | cons c s ih =>
    have hc : c ≠ '.' := fun e => h (by simp [e])
    have hs : '.' ∉ s := fun e => h (List.mem_cons_of_mem _ e)
    have hsw : startsWith (c :: (s ++ ".txt".toList)) ".txt".toList = false := by
      show startsWith (c :: (s ++ ".txt".toList)) ('.' :: "txt".toList) = false
      simp [startsWith, hc]
    rw [List.cons_append, replaceFirst, if_neg (by rw [hsw]; decide), ih hs]

/-- C18: let the notes directory be given by an absolute `__dirname`. When no
node of the file system sits at the path of the notes directory, the listing
returns the empty list. When the notes directory exists (paths of the file
system being unique and no directory inside it having a name that ends in
`.txt`), the listing returns exactly one entry per `.txt` file of the notes
directory: the entries are, up to order, the notes `noteOfTxtFile` of the
nodes of the file system, each with the content, modification time and size
of its file; and they are ordered by `lastModified` descending, every entry
modified no earlier than all entries after it. -/
theorem listNotes_sorted_one_per_file (dirname : Str) (disk : NoteDisk)
    (habs : dirname.head? = some '/') :
    ((∀ n ∈ disk, n.path ≠ notesDir dirname) →
      listNotesHandler dirname disk = .notes []) ∧
    ((∃ n ∈ disk, n.path = notesDir dirname ∧ n.isDirectory = true) →
      (disk.map NoteNode.path).Nodup →
      (∀ n ∈ disk, ∀ f, fs.childName (notesDir dirname) n.path = some f →
        endsWith f ".txt".toList = true → n.isDirectory = false) →
      ∃ entries,
        listNotesHandler dirname disk = .notes entries ∧
        entries.Perm (disk.filterMap (noteOfTxtFile (notesDir dirname))) ∧
        List.Sorted (fun a b => b.lastModified ≤ a.lastModified) entries) := by
  have hlast := (notesDir_clean dirname habs).getLast?_ne_sep
  constructor
  · intro h
    have hex : notefs.existsSync disk (notesDir dirname) = false := by
      unfold notefs.existsSync
      rw [if_neg (fun e => hlast e.2), Bool.eq_false_iff]
      intro e
      obtain ⟨n, hn, hp⟩ := List.any_eq_true.1 e
      exact h n hn (by simpa using hp)
    unfold listNotesHandler
    simp only [hex, Bool.not_false, if_true]
  · rintro ⟨d, hd, hdp, _⟩ hnd hreg
    have hex : notefs.existsSync disk (notesDir dirname) = true := by
      unfold notefs.existsSync
      rw [if_neg (fun e => hlast e.2)]
      exact List.any_eq_true.2 ⟨d, hd, by simp only [hdp, decide_True]⟩
    have hys := mapOrThrow_listedNote dirname disk habs hnd hreg disk (fun _ h => h)
    haveI : IsTotal NoteEntry newerFirst := ⟨fun a b => Nat.le_total _ _⟩
    haveI : IsTrans NoteEntry newerFirst := ⟨fun a b c hab hbc => Nat.le_trans hbc hab⟩
    refine ⟨List.insertionSort newerFirst (disk.filterMap (noteOfTxtFile (notesDir dirname))),
      ?_, List.perm_insertionSort _ _, List.sorted_insertionSort newerFirst _⟩
    unfold listNotesHandler
    simp only [hex, Bool.not_true, Bool.false_eq_true, if_false, notefs.readdirSync, hys]

theorem listNotes_sorted_one_per_file_witness :
    (listNotesHandler sampleDirname [] = .notes []) ∧
    listNotesHandler sampleDirname sampleNotes
      = .notes [ ⟨"My Note".toList, "My Note".toList, "hello".toList, 300, 5⟩,
          ⟨"todo".toList, "todo".toList, "milk".toList, 100, 4⟩ ] ∧
    ∃ entries,
      listNotesHandler sampleDirname sampleNotes = .notes entries ∧
      entries.Perm (sampleNotes.filterMap (noteOfTxtFile (notesDir sampleDirname))) ∧
      List.Sorted (fun a b => b.lastModified ≤ a.lastModified) entries :=
  ⟨(listNotes_sorted_one_per_file sampleDirname [] (by decide)).1 (by decide),
    by decide,
    (listNotes_sorted_one_per_file sampleDirname sampleNotes (by decide)).2 (by decide)
      (by decide) (by decide)⟩

/-! ## Deleting what is and what is not in the store -/

/-- A file delete that passes the guard answers 404 and changes nothing when
no node of the file system sits at the path, with or without a closing
separator. -/
theorem deleteHandler_absent (dirname cwd : Str) (disk : Disk) (filename : Str)
    (hin : insideRoot (path.resolve cwd (uploadsDir dirname))
      (path.resolve cwd (path.join [dirname, "../uploads".toList, filename])) = true)
    (habsent : ∀ n ∈ disk, n.path ≠ path.join [dirname, "../uploads".toList, filename] ∧
      n.path ++ ['/'] ≠ path.join [dirname, "../uploads".toList, filename]) :
    deleteHandler dirname cwd disk filename = (.error 404 "File not found".toList, disk) := by
  rw [deleteHandler_inside dirname cwd disk filename hin, if_pos]
  unfold fs.existsSync
  rw [Bool.eq_false_iff]
  intro e
  split_ifs at e with hsl
  · obtain ⟨n, hn, hp⟩ := List.any_eq_true.1 e
    simp only [Bool.and_eq_true, decide_eq_true_eq] at hp
    refine (habsent n hn).2 ?_
    rw [hp.1]
    exact List.dropLast_append_getLast? _ hsl.2
  · obtain ⟨n, hn, hp⟩ := List.any_eq_true.1 e
    exact (habsent n hn).1 (by simpa using hp)

/-- A file delete that passes the guard and finds a regular file at the path
removes the nodes at that path and no other (one node when paths are
unique), and the same delete repeated at once answers 404. -/
theorem deleteHandler_file (dirname cwd : Str) (disk : Disk) (filename : Str)
    (hwf : ∀ n ∈ disk, n.path.getLast? ≠ some '/')
    (hin : insideRoot (path.resolve cwd (uploadsDir dirname))
      (path.resolve cwd (path.join [dirname, "../uploads".toList, filename])) = true)
    (hex : ∃ n ∈ disk, n.path = path.join [dirname, "../uploads".toList, filename] ∧
      n.isDirectory = false) :
    deleteHandler dirname cwd disk filename
      = (.deleted, disk.filter
          (fun n => decide (n.path ≠ path.join [dirname, "../uploads".toList, filename]))) ∧
    ((disk.map Node.path).Nodup →
      (disk.filter
        (fun n => decide (n.path ≠ path.join [dirname, "../uploads".toList, filename]))).length
        + 1 = disk.length) ∧
    deleteHandler dirname cwd
        (disk.filter
          (fun n => decide (n.path ≠ path.join [dirname, "../uploads".toList, filename])))
        filename
      = (.error 404 "File not found".toList,
          disk.filter
            (fun n => decide (n.path ≠ path.join [dirname, "../uploads".toList, filename]))) := by
  obtain ⟨n, hn, hp, hreg⟩ := hex
  have hlast : (path.join [dirname, "../uploads".toList, filename]).getLast? ≠ some '/' := by
    rw [← hp]
    exact hwf n hn
  have hexi : fs.existsSync disk (path.join [dirname, "../uploads".toList, filename]) = true := by
    unfold fs.existsSync
    rw [if_neg (fun h => hlast h.2)]
    exact List.any_eq_true.2 ⟨n, hn, by simp only [hp, decide_True]⟩
  have hany : disk.any (fun n =>
      decide (n.path = path.join [dirname, "../uploads".toList, filename]) && !n.isDirectory)
      = true :=
    List.any_eq_true.2 ⟨n, hn, by simp only [hp, hreg, decide_True, Bool.not_false,
      Bool.and_self]⟩
  refine ⟨?_, fun hnd => length_filter_ne_of_nodup Node.path _ disk hnd ⟨n, hn, hp⟩, ?_⟩
  · rw [deleteHandler_inside dirname cwd disk filename hin, if_neg (by rw [hexi]; decide)]
    unfold fs.unlinkSync
    rw [if_pos hany]
  · rw [deleteHandler_inside dirname cwd _ filename hin, if_pos]
    exact fs_existsSync_filter disk _ hlast

/-- A note delete with a valid id answers 404 and changes nothing when no
node of the file system sits at the path of the note. -/
theorem deleteNoteHandler_absent (dirname : Str) (disk : NoteDisk) (noteId : Str)
    (habs : dirname.head? = some '/') (hid : idRegexTest noteId = true)
    (habsent : ∀ n ∈ disk, n.path ≠ noteFilePath dirname noteId) :
    deleteNoteHandler dirname disk noteId = (.error 404 "Note not found".toList, disk) := by
  obtain ⟨_, _, hlast⟩ := noteFilePath_eq dirname noteId habs hid
  rw [deleteNoteHandler_valid dirname disk noteId hid, if_pos]
  unfold notefs.existsSync
  rw [if_neg (fun h => hlast h.2), Bool.eq_false_iff]
  intro e
  obtain ⟨n, hn, hp⟩ := List.any_eq_true.1 e
  exact habsent n hn (by simpa using hp)

/-- The deletes on the sample file systems: a name and an id that are not
stored are answered 404 without change; the stored upload and the stored note
are deleted, one node each, and the delete repeated is answered 404. -/
theorem delete_on_samples :
    deleteHandler sampleDirname "/app".toList sampleDisk "missing.txt".toList
      = (.error 404 "File not found".toList, sampleDisk) ∧
    deleteNoteHandler sampleDirname sampleNotes "missing".toList
      = (.error 404 "Note not found".toList, sampleNotes) ∧
    deleteHandler sampleDirname "/app".toList sampleDisk
        "1700000000000-123e4567-e89b-42d3-a456-426614174000-a.txt".toList
      = (.deleted,
          [ ⟨"/app/server/uploads".toList, true, 0, 0⟩,
            ⟨"/app/server/uploads-old/x".toList, false, 7, 0⟩,
            ⟨"/app/server/notes/secret.txt".toList, false, 5, 0⟩ ]) ∧
    deleteHandler sampleDirname "/app".toList
        [ ⟨"/app/server/uploads".toList, true, 0, 0⟩,
          ⟨"/app/server/uploads-old/x".toList, false, 7, 0⟩,
          ⟨"/app/server/notes/secret.txt".toList, false, 5, 0⟩ ]
        "1700000000000-123e4567-e89b-42d3-a456-426614174000-a.txt".toList
      = (.error 404 "File not found".toList,
          [ ⟨"/app/server/uploads".toList, true, 0, 0⟩,
            ⟨"/app/server/uploads-old/x".toList, false, 7, 0⟩,
            ⟨"/app/server/notes/secret.txt".toList, false, 5, 0⟩ ]) ∧
    deleteNoteHandler sampleDirname sampleNotes "todo".toList
      = (.deleted,
          [ ⟨"/app/server/notes".toList, true, [], 0⟩,
            ⟨"/app/server/notes/My Note.txt".toList, false, "hello".toList, 300⟩ ]) := by
  decide

/-- C19 (evaluation at the failing input): the name `.` resolves inside the
uploads root, to the root itself, and is the name of no entry of the uploads
directory, so it is not in the store; yet `DELETE /api/files/.` with a valid
token is not answered 404. `existsSync` finds the uploads directory at the
path, `unlinkSync` throws on a directory, and the handler passes the error
on, the state unchanged. -/
theorem delete_dot_is_passed_on :
    path.join [sampleDirname, "../uploads".toList, ".".toList] = uploadsDir sampleDirname ∧
    insideRoot (path.resolve "/app".toList (uploadsDir sampleDirname))
      (path.resolve "/app".toList
        (path.join [sampleDirname, "../uploads".toList, ".".toList])) = true ∧
    ".".toList ∉ fs.readdirSync sampleDisk (uploadsDir sampleDirname) ∧
    fs.existsSync sampleDisk (uploadsDir sampleDirname) = true ∧
    fs.unlinkSync sampleDisk (uploadsDir sampleDirname) = none ∧
    filesRouter sampleEnv ⟨some "Bearer good".toList, none⟩ (.delete ".".toList) sampleState
      = (.nextError, sampleState) ∧
    (filesRouter sampleEnv ⟨some "Bearer good".toList, none⟩ (.delete ".".toList)
        sampleState).1.status ≠ some 404 := by
  refine ⟨by decide, by decide, by decide, by decide, rfl, by decide, by decide⟩

/-- The record `ADMIN_USER` changes only in a login that is answered 200 with
a token: every other request to the auth router leaves it as it was. -/
theorem admin_changes_only_on_accepted_login (bcryptCompare : Str → Str → Bool)
    (jwtSign : Str → Str) (jwtVerify : Str → Option Str) (admin : User) (r : AuthRequest) :
    (authRouter bcryptCompare jwtSign jwtVerify admin r).2 = admin ∨
    ∃ username password hash,
      r = .login username password ∧ admin.password = some hash ∧
      bcryptCompare password hash = true ∧
      (authRouter bcryptCompare jwtSign jwtVerify admin r).1.status = some 200 := by
  cases r with
  | logout => exact Or.inl rfl
  | me req =>
    left
    show (match protect jwtVerify req with
      | .reject status error => (AuthResponse.error status error, admin)
      | .next id => (AuthResponse.me id, admin)).2 = admin
    cases hg : protect jwtVerify req <;> rfl
  | login username password =>
    show (login bcryptCompare jwtSign admin username password).2 = admin ∨
      ∃ username1 password1 hash,
        AuthRequest.login username password = .login username1 password1 ∧
        admin.password = some hash ∧ bcryptCompare password1 hash = true ∧
        (login bcryptCompare jwtSign admin username password).1.status = some 200
    unfold login
    cases hv : validateLogin username password with
    | none => exact Or.inl rfl
    | some u =>
      simp only [loginHandler]
      by_cases hu : u ≠ admin.username
      · rw [if_pos hu]
        exact Or.inl rfl
      · rw [if_neg hu]
        cases hp : admin.password with
        | none => exact Or.inl rfl
        | some hash =>
          cases hc : bcryptCompare password hash with
          | false =>
            left
            simp only [hc, Bool.not_false, if_true]
          | true =>
            refine Or.inr ⟨username, password, hash, rfl, rfl, hc, ?_⟩
            simp only [hc, Bool.not_true, Bool.false_eq_true, if_false]
            rfl

end FileManager
